import Mathlib

/-!
# Verification of the food-delivery dashboard data pipeline (`dashboard.py`)

A shallow embedding of the data-ingestion, normalization, imputation,
filtering and summary pipeline of `dashboard.py`, together with proofs of
the specification's testable properties.

Modelling conventions:
* A pandas cell is `Cell`: a numeric value (`ℚ`, standing for the float),
  a string, or `missing` (pandas `NaN`).  Floating-point rounding is not
  modelled; all arithmetic is exact over `ℚ`.
* A `DataFrame` is a `Table`: a header (list of column names, in order)
  and column-oriented data aligned positionally with the header
  (pandas frames are rectangular and columnar).
* Reading a CSV file is I/O; the environment (`Env`) supplies the parsed
  tables for the two candidate files, and `st.error`/`st.stop` (and an
  uncaught `KeyError`) are modelled as `Except.error`.
-/

namespace Dashboard

attribute [local semireducible] Rat.add Rat.mul Rat.sub Rat.inv

/-- One pandas cell: a numeric value, a piece of text, or `NaN`. -/
inductive Cell where
  | num (q : ℚ)
  | str (s : String)
  | missing
deriving DecidableEq, Repr

/-- A column of a frame. -/
abbrev Col := List Cell

/-- A pandas `DataFrame`: column names in order, and the columns' data,
aligned positionally with the header. -/
structure Table where
  header : List String
  colData : List Col
deriving DecidableEq, Repr

/-- `df[c]`: the data of the (first) column named `c`; an absent column
reads as empty (the code always guards column access with
`c in df.columns`, except the delivery-time drop, which is modelled as a
`KeyError` in `autoClean`). -/
def getCol (t : Table) (c : String) : Col :=
  t.colData.getD (t.header.indexOf c) []

/-- `df[c] = f(df[c])` guarded by `if c in df.columns`. -/
def updateCol (t : Table) (c : String) (f : Cell → Cell) : Table :=
  if c ∈ t.header then
    ⟨t.header,
     t.colData.set (t.header.indexOf c)
       ((t.colData.getD (t.header.indexOf c) []).map f)⟩
  else t

/-- Boolean-mask row selection on one column (`col[mask]`): keep the
entries whose mask bit is true, in order. -/
def applyMask (m : List Bool) (l : List α) : List α :=
  ((m.zip l).filter (fun p => p.1)).map (fun p => p.2)

/-- `df[mask]`: boolean-mask row selection applied to the whole frame. -/
def maskTable (m : List Bool) (t : Table) : Table :=
  ⟨t.header, t.colData.map (applyMask m)⟩

/-! ## Strings: Python `str.strip()` / `str.lower()` -/

/-- Python whitespace (the ASCII part, which is all the data contains). -/
def isSpaceChar (c : Char) : Bool :=
  c = ' ' ∨ c = '\t' ∨ c = '\n' ∨ c = '\r'

/-- Strip leading and trailing whitespace from a character list. -/
def trimChars (l : List Char) : List Char :=
  ((l.dropWhile isSpaceChar).reverse.dropWhile isSpaceChar).reverse

/-- Python `s.strip()`. -/
def pytrim (s : String) : String := ⟨trimChars s.data⟩

/-- Python `s.lower()` (ASCII case folding, which covers the data). -/
def pylower (s : String) : String := ⟨s.data.map Char.toLower⟩

/-! ## Numeric coercion: `pd.to_numeric(errors="coerce")` -/

/-- Exact rational division (equal to `a / b`, proved in `ratDiv_eq_div`;
spelled out through `mkRat` so that concrete instances evaluate inside the
kernel). -/
def ratDiv (a b : ℚ) : ℚ :=
  if b.num < 0 then mkRat (-(a.num * b.den)) (a.den * b.num.natAbs)
  else mkRat (a.num * b.den) (a.den * b.num.natAbs)

theorem ratDiv_eq_div (a b : ℚ) : ratDiv a b = a / b := by
  unfold ratDiv
  rw [Rat.div_def']
  by_cases hb : b.num < 0
  · rw [if_pos hb, Rat.mkRat_eq_divInt]
    have hd : ((a.den * b.num.natAbs : ℕ) : ℤ) = -((a.den : ℤ) * b.num) := by
      push_cast [Int.natCast_natAbs]
      rw [abs_of_neg hb]
      ring
    rw [hd, Rat.neg_divInt_neg]
  · rw [if_neg hb, Rat.mkRat_eq_divInt]
    have hd : ((a.den * b.num.natAbs : ℕ) : ℤ) = (a.den : ℤ) * b.num := by
      push_cast [Int.natCast_natAbs]
      rw [abs_of_nonneg (not_lt.mp hb)]
    rw [hd]

/-- Value of a list of decimal digits. -/
def digitsToNat (l : List Char) : ℕ :=
  l.foldl (fun n c => 10 * n + (c.toNat - 48)) 0

/-- Parse an unsigned plain decimal numeral (`123`, `3.5`, `.5`, `7.`).
Per the spec's note, only plain decimal numerals are assumed parseable. -/
def parseUnsigned (l : List Char) : Option ℚ :=
  let ip := l.takeWhile Char.isDigit
  let rest := l.dropWhile Char.isDigit
  match rest with
  | [] => if ip = [] then none else some (digitsToNat ip)
  | '.' :: fp =>
      if fp.all Char.isDigit ∧ (ip ≠ [] ∨ fp ≠ []) then
        some ((digitsToNat ip : ℚ) + ratDiv (digitsToNat fp) (10 ^ fp.length))
      else none
  | _ => none

/-- Parse an optionally signed plain decimal numeral. -/
def parseDec (s : String) : Option ℚ :=
  match s.data with
  | '-' :: r => (parseUnsigned r).map (fun q => -q)
  | '+' :: r => parseUnsigned r
  | l => parseUnsigned l

/-- `pd.to_numeric(x, errors="coerce")` on one cell: numbers pass through,
parseable text becomes a number, anything else (including `NaN`) becomes
`missing`. -/
def coerceCell : Cell → Cell
  | .num q => .num q
  | .str s =>
      match parseDec (pytrim s) with
      | some q => .num q
      | none => .missing
  | .missing => .missing

/-! ## Categorical normalization (lines 33–42) -/

/-- One of the fixed lowercase→canonical dictionaries. -/
abbrev CatMap := List (String × String)

def weatherMap : CatMap :=
  [("sunny", "Sunny"), ("rainy", "Rainy"), ("snowy", "Snowy"),
   ("foggy", "Foggy"), ("windy", "Windy")]

def trafficMap : CatMap :=
  [("low", "Low"), ("medium", "Medium"), ("high", "High")]

def todMap : CatMap :=
  [("morning", "Morning"), ("afternoon", "Afternoon"),
   ("evening", "Evening"), ("night", "Night")]

def vehicleMap : CatMap :=
  [("bike", "Bike"), ("scooter", "Scooter"), ("car", "Car")]

/-- The four categorical columns and their dictionaries, in code order. -/
def catMaps : List (String × CatMap) :=
  [("Weather", weatherMap), ("Traffic_Level", trafficMap),
   ("Time_of_Day", todMap), ("Vehicle_Type", vehicleMap)]

/-- `astype(str)` on one cell: pandas renders `NaN` as `"nan"`; the exact
rendering of numbers is irrelevant (no dictionary key is numeric). -/
def cellToStr : Cell → String
  | .num q => toString q
  | .str s => s
  | .missing => "nan"

/-- `norm`: `astype(str).str.strip().str.lower()` on one cell. -/
def normCellStr (x : Cell) : String := pylower (pytrim (cellToStr x))

/-- Line 42, per cell: `norm(df[col]).map(mp).fillna(df[col])` — a hit in
the dictionary becomes the canonical label, a miss keeps the ORIGINAL cell
(`fillna` with the untouched column restores it). -/
def normMapCell (mp : CatMap) (x : Cell) : Cell :=
  match mp.lookup (normCellStr x) with
  | some c => .str c
  | none => x

/-! ## Aggregate statistics (pandas `mean`, `median`, `quantile`, `mode`) -/

/-- The numeric (non-`NaN`) values of a column; pandas aggregates skip
`NaN`. -/
def numVals (col : Col) : List ℚ :=
  col.filterMap (fun x => match x with | .num q => some q | _ => none)

/-- Sort rationals ascending. -/
def sortQ (l : List ℚ) : List ℚ :=
  List.insertionSort (fun a b => a ≤ b) l

/-- `Series.mean()`: `NaN` on an empty series. -/
def meanQ (l : List ℚ) : Option ℚ :=
  if l = [] then none else some (ratDiv l.sum l.length)

/-- `Series.median()`: middle of the sorted values (average of the two
middles for an even count); `NaN` when empty. -/
def medianQ (l : List ℚ) : Option ℚ :=
  let s := sortQ l
  let n := s.length
  if n = 0 then none
  else if n % 2 = 1 then some (s.getD (n / 2) 0)
  else some (ratDiv (s.getD (n / 2 - 1) 0 + s.getD (n / 2) 0) 2)

/-- `Series.quantile(q)` with the default linear interpolation between
order statistics: position `h = q·(n−1)`, value
`s[⌊h⌋] + (h − ⌊h⌋)·(s[⌊h⌋+1] − s[⌊h⌋])`; `NaN` when empty. -/
def quantileQ (q : ℚ) (l : List ℚ) : Option ℚ :=
  let s := sortQ l
  let n := s.length
  if n = 0 then none
  else
    let h : ℚ := q * ((n : ℚ) - 1)
    let k : ℕ := h.floor.toNat
    if k + 1 < n then some (s.getD k 0 + (h - (k : ℚ)) * (s.getD (k + 1) 0 - s.getD k 0))
    else some (s.getD k 0)

/-- Lexicographic comparison of character lists by code point (Python
string `<=`). -/
def charListLe : List Char → List Char → Bool
  | [], _ => true
  | _ :: _, [] => false
  | a :: as, b :: bs =>
      if a.toNat < b.toNat then true
      else if b.toNat < a.toNat then false
      else charListLe as bs

/-- Python string `<=`, by code point. -/
def strLe (s t : String) : Bool := charListLe s.data t.data

/-- Total order used to sort cells (pandas sorts mode results and option
lists ascending; within the data only same-typed cells are compared:
numbers numerically, strings lexicographically). -/
def cellLeB : Cell → Cell → Bool
  | .missing, _ => true
  | .num _, .missing => false
  | .num p, .num q => p ≤ q
  | .num _, .str _ => true
  | .str _, .missing => false
  | .str _, .num _ => false
  | .str s, .str t => strLe s t

/-- Sort cells ascending by `cellLeB`. -/
def sortCells (l : List Cell) : List Cell :=
  List.insertionSort (fun a b => cellLeB a b = true) l

/-- `Series.mode(dropna=True)` before sorting: the non-missing values of
maximal multiplicity. -/
def modesOf (col : Col) : List Cell :=
  let vs := col.filter (fun x => x ≠ Cell.missing)
  let uq := vs.dedup
  let mx := (uq.map (fun v => vs.count v)).foldr max 0
  uq.filter (fun v => vs.count v = mx)

/-- `df[c].mode(dropna=True).iloc[0]`: pandas returns the modes sorted
ascending, and the code takes the first; `none` when there are no
non-missing values (`len(m) == 0`). -/
def modeVal (col : Col) : Option Cell :=
  (sortCells (modesOf col)).head?

/-! ## The auto-clean pipeline (`load_data`, raw branch, lines 25–52) -/

/-- Line 28: `df.columns = [c.strip() for c in df.columns]`. -/
def stripHeader (t : Table) : Table :=
  ⟨t.header.map pytrim, t.colData⟩

/-- Lines 29–31: coerce the three numeric columns (in code order). -/
def coerceNumerics (t : Table) : Table :=
  updateCol
    (updateCol (updateCol t "Distance_km" coerceCell)
      "Courier_Experience_yrs" coerceCell)
    "Delivery_Time_min" coerceCell

/-- Lines 40–42: normalize the four categorical columns (in code order). -/
def normalizeCats (t : Table) : Table :=
  updateCol
    (updateCol
      (updateCol (updateCol t "Weather" (normMapCell weatherMap))
        "Traffic_Level" (normMapCell trafficMap))
      "Time_of_Day" (normMapCell todMap))
    "Vehicle_Type" (normMapCell vehicleMap)

/-- The row mask `~df["Delivery_Time_min"].isna()`. -/
def dtMask (t : Table) : List Bool :=
  (getCol t "Delivery_Time_min").map (fun x => x ≠ Cell.missing)

/-- Line 43: drop the rows whose delivery time is `NaN`. -/
def dropMissingDT (t : Table) : Table :=
  maskTable (dtMask t) t

/-- `fillna(v)` on one cell (`fillna(NaN)` leaves `NaN` in place, which is
what filling with the median of an all-missing column does). -/
def fillWith (v : Option Cell) (x : Cell) : Cell :=
  if x = Cell.missing then v.getD Cell.missing else x

/-- The numeric fill value: `df[c].median()` as a cell. -/
def medianFillVal (col : Col) : Option Cell :=
  (medianQ (numVals col)).map Cell.num

/-- Lines 45–47 for one column:
`if c in df.columns and df[c].isna().sum() > 0: df[c] = df[c].fillna(df[c].median())`. -/
def imputeNum (t : Table) (c : String) : Table :=
  if c ∈ t.header ∧ Cell.missing ∈ getCol t c then
    updateCol t c (fillWith (medianFillVal (getCol t c)))
  else t

/-- Lines 48–51 for one column: mode imputation, skipped when the mode
series is empty. -/
def imputeCat (t : Table) (c : String) : Table :=
  if c ∈ t.header ∧ Cell.missing ∈ getCol t c then
    match modeVal (getCol t c) with
    | some m => updateCol t c (fillWith (some m))
    | none => t
  else t

/-- Lines 45–47, both numeric columns in code order. -/
def imputeNums (t : Table) : Table :=
  imputeNum (imputeNum t "Distance_km") "Courier_Experience_yrs"

/-- Lines 48–51, the four categorical columns in code order. -/
def imputeCats (t : Table) : Table :=
  imputeCat
    (imputeCat (imputeCat (imputeCat t "Weather") "Traffic_Level")
      "Time_of_Day")
    "Vehicle_Type"

/-- Startup failures: no candidate file; the uncaught `KeyError` from
line 43 when the raw file has no `Delivery_Time_min` column; the
required-fields report of lines 62–64. -/
inductive LoadErr where
  | noFile
  | keyErrorDT
  | missingFields (fs : List String)
deriving DecidableEq, Repr

/-- The raw branch of `load_data` (lines 26–52): strip header, coerce
numerics, normalize categoricals, drop missing delivery times, impute.
Line 43 indexes `df["Delivery_Time_min"]` unguarded: a raw table without
that column raises `KeyError`. -/
def autoClean (t : Table) : Except LoadErr Table :=
  let t3 := normalizeCats (coerceNumerics (stripHeader t))
  if "Delivery_Time_min" ∈ t3.header then
    Except.ok (imputeCats (imputeNums (dropMissingDT t3)))
  else Except.error LoadErr.keyErrorDT

/-- The filesystem as `load_data` sees it: the parsed contents of
`Food_Delivery_Times_CLEAN.csv` and `Food_Delivery_Times.csv`, when each
exists. -/
structure Env where
  cleanFile : Option Table
  rawFile : Option Table

/-- Provenance tag returned by `load_data`. -/
inductive Provenance where
  | clean
  | rawAuto
deriving DecidableEq, Repr

/-- `load_data()` (lines 21–55): the pre-cleaned file is returned as
parsed, untouched; otherwise the raw file is auto-cleaned; otherwise a
fatal error. -/
def load_data (e : Env) : Except LoadErr (Table × Provenance) :=
  match e.cleanFile with
  | some t => Except.ok (t, Provenance.clean)
  | none =>
      match e.rawFile with
      | some t => (autoClean t).map (fun u => (u, Provenance.rawAuto))
      | none => Except.error LoadErr.noFile

/-- Line 59: the required-field list. -/
def needed : List String :=
  ["Delivery_Time_min", "Distance_km", "Courier_Experience_yrs",
   "Weather", "Traffic_Level", "Time_of_Day", "Vehicle_Type"]

/-- Lines 57–64: load, then check the required fields, reporting the
missing ones (`missing = [c for c in needed if c not in df.columns]`). -/
def loadDataset (e : Env) : Except LoadErr (Table × Provenance) :=
  (load_data e).bind (fun r =>
    let ms := needed.filter (fun c => c ∉ r.1.header)
    if ms = [] then Except.ok r else Except.error (LoadErr.missingFields ms))

/-! ## The filter engine (lines 100–127) -/

/-- The sidebar state: one selection list per categorical column and one
inclusive range per numeric column. -/
structure FilterSpec where
  wSel : List Cell
  tSel : List Cell
  todSel : List Cell
  vSel : List Cell
  distLo : ℚ
  distHi : ℚ
  expLo : ℚ
  expHi : ℚ
deriving DecidableEq, Repr

/-- `Series.isin(sel)` on one cell. -/
def memberCell (sel : List Cell) (x : Cell) : Bool :=
  x ∈ sel

/-- `Series.between(lo, hi)` on one cell: inclusive on both ends;
comparisons against `NaN` are false, so a missing value never passes. -/
def betweenCell (lo hi : ℚ) (x : Cell) : Bool :=
  match x with
  | .num q => lo ≤ q ∧ q ≤ hi
  | _ => false

/-- `&` of two boolean masks. -/
def andMask (a b : List Bool) : List Bool :=
  List.zipWith (fun x y => x && y) a b

/-- The conjunction mask of lines 120–126 (code order). -/
def filterMask (t : Table) (sp : FilterSpec) : List Bool :=
  andMask ((getCol t "Weather").map (memberCell sp.wSel))
    (andMask ((getCol t "Traffic_Level").map (memberCell sp.tSel))
      (andMask ((getCol t "Time_of_Day").map (memberCell sp.todSel))
        (andMask ((getCol t "Vehicle_Type").map (memberCell sp.vSel))
          (andMask ((getCol t "Distance_km").map (betweenCell sp.distLo sp.distHi))
            ((getCol t "Courier_Experience_yrs").map (betweenCell sp.expLo sp.expHi))))))

/-- `dff = df[...]` (lines 120–127): the filtered view. -/
def filterTable (t : Table) (sp : FilterSpec) : Table :=
  maskTable (filterMask t sp) t

/-- `sorted(df[col].dropna().unique())` (lines 102–105): the observed
non-missing values, deduplicated (first occurrences) and sorted. -/
def observedSorted (col : Col) : List Cell :=
  sortCells ((col.filter (fun x => x ≠ Cell.missing)).dedup)

/-- `float(df[c].min())`, skipping `NaN` (0 when there is no numeric
value; the code would put `NaN` on the slider there). -/
def colMinQ (col : Col) : ℚ :=
  ((numVals col).min?).getD 0

/-- `float(df[c].max())`, skipping `NaN`. -/
def colMaxQ (col : Col) : ℚ :=
  ((numVals col).max?).getD 0

/-- The defaults of lines 102–118: every observed categorical value
selected, and each numeric range `[min, max]` of its column. -/
def maximalSpec (t : Table) : FilterSpec :=
  ⟨observedSorted (getCol t "Weather"),
   observedSorted (getCol t "Traffic_Level"),
   observedSorted (getCol t "Time_of_Day"),
   observedSorted (getCol t "Vehicle_Type"),
   colMinQ (getCol t "Distance_km"), colMaxQ (getCol t "Distance_km"),
   colMinQ (getCol t "Courier_Experience_yrs"),
   colMaxQ (getCol t "Courier_Experience_yrs")⟩

/-! ## The summary calculator (lines 138–142 and 224–226) -/

/-- A Pearson correlation entry, kept exact: `some (c, d)` stands for the
real value `c / √d` with `d > 0`; `none` is pandas `NaN`, produced exactly
when a column has zero variance over the pairwise-complete observations
(which includes the empty and single-row cases). -/
abbrev CorrEntry := Option (ℚ × ℚ)

/-- The pairwise-complete observations of two columns (pandas `corr`
drops, for each pair of columns, the rows where either value is `NaN`). -/
def pairsOf (xs ys : Col) : List (ℚ × ℚ) :=
  (xs.zip ys).filterMap (fun p =>
    match p with
    | (.num a, .num b) => some (a, b)
    | _ => none)

/-- Pearson correlation over paired observations, as a `CorrEntry`:
with `n` pairs, `vx = n·Σx² − (Σx)²`, `vy` likewise and
`c = n·Σxy − Σx·Σy`, the correlation is `c / √(vx·vy)` — `NaN` iff
`vx = 0` or `vy = 0` (zero variance, including `n ≤ 1`). -/
def pearsonND (ps : List (ℚ × ℚ)) : CorrEntry :=
  let n : ℚ := ps.length
  let sx := (ps.map (fun p => p.1)).sum
  let sy := (ps.map (fun p => p.2)).sum
  let sxx := (ps.map (fun p => p.1 * p.1)).sum
  let syy := (ps.map (fun p => p.2 * p.2)).sum
  let sxy := (ps.map (fun p => p.1 * p.2)).sum
  let vx := n * sxx - sx * sx
  let vy := n * syy - sy * sy
  if vx = 0 ∨ vy = 0 then none else some (n * sxy - sx * sy, vx * vy)

/-- `use_cols` of line 225. -/
def useCols : List String :=
  ["Distance_km", "Courier_Experience_yrs", "Delivery_Time_min"]

/-- Entry `(i, j)` of `dff[use_cols].corr()`. -/
def corrEntry (t : Table) (i j : ℕ) : CorrEntry :=
  pearsonND (pairsOf (getCol t (useCols.getD i "")) (getCol t (useCols.getD j "")))

/-- `len(dff)`: frames are rectangular, so the first column's length is
the row count. -/
def nRows (t : Table) : ℕ :=
  (t.colData.getD 0 []).length

/-- The five outputs of lines 139–142 and 226. -/
structure Summary where
  count : ℕ
  mean : Option ℚ
  median : Option ℚ
  p90 : Option ℚ
  corr : List (List CorrEntry)
deriving DecidableEq, Repr

/-- `summarize(view)`: the KPI metrics over `Delivery_Time_min` plus the
3×3 correlation matrix over `use_cols`.  Total — an empty view yields
`count = 0` and `none` (`NaN`) everywhere, never an exception. -/
def summarize (t : Table) : Summary :=
  let dtv := numVals (getCol t "Delivery_Time_min")
  ⟨nRows t, meanQ dtv, medianQ dtv, quantileQ (ratDiv 9 10) dtv,
   [[corrEntry t 0 0, corrEntry t 0 1, corrEntry t 0 2],
    [corrEntry t 1 0, corrEntry t 1 1, corrEntry t 1 2],
    [corrEntry t 2 0, corrEntry t 2 1, corrEntry t 2 2]]⟩

instance {ε α : Type} [DecidableEq ε] [DecidableEq α] :
    DecidableEq (Except ε α) := fun x y =>
  match x, y with
  | .ok a, .ok b =>
      if h : a = b then isTrue (h ▸ rfl)
      else isFalse (fun hc => h (Except.ok.inj hc))
  | .error a, .error b =>
      if h : a = b then isTrue (h ▸ rfl)
      else isFalse (fun hc => h (Except.error.inj hc))
  | .ok _, .error _ => isFalse (fun hc => Except.noConfusion hc)
  | .error _, .ok _ => isFalse (fun hc => Except.noConfusion hc)

/-! ## Supporting list lemmas -/

theorem map_id_of_mem {l : List α} {f : α → α} (h : ∀ x ∈ l, f x = x) :
    l.map f = l := by
  induction l with
  | nil => rfl
  | cons a l ih =>
      simp only [List.map_cons, List.cons.injEq]
      exact ⟨h a (by simp), ih (fun x hx => h x (by simp [hx]))⟩

theorem set_getD_self (l : List α) (i : ℕ) (d : α) :
    l.set i (l.getD i d) = l := by
  induction l generalizing i with
  | nil => rfl
  | cons a l ih =>
      cases i with
      | zero => rfl
      | succ n => simpa using ih n

@[simp] theorem applyMask_nil_left (l : List α) : applyMask [] l = [] := rfl

@[simp] theorem applyMask_nil_right (m : List Bool) :
    applyMask m ([] : List α) = [] := by
  cases m <;> rfl

theorem applyMask_cons (b : Bool) (m : List Bool) (a : α) (l : List α) :
    applyMask (b :: m) (a :: l) =
      if b then a :: applyMask m l else applyMask m l := by
  cases b <;> simp [applyMask]

theorem applyMask_all_true {m : List Bool} {l : List α}
    (hm : ∀ b ∈ m, b = true) (hl : l.length ≤ m.length) :
    applyMask m l = l := by
  induction m generalizing l with
  | nil =>
      cases l with
      | nil => rfl
      | cons a l => simp at hl
  | cons b m ih =>
      cases l with
      | nil => simp
      | cons a l =>
          have hb : b = true := hm b (by simp)
          rw [applyMask_cons, hb, if_pos rfl,
            ih (fun x hx => hm x (by simp [hx])) (by simpa using hl)]

theorem applyMask_map_self (f : α → Bool) (l : List α) :
    applyMask (l.map f) l = l.filter f := by
  induction l with
  | nil => rfl
  | cons a l ih =>
      rw [List.map_cons, applyMask_cons, List.filter_cons]
      cases h : f a <;> simp [h, ih]

theorem applyMask_map_comm (m : List Bool) (f : α → β) (l : List α) :
    applyMask m (l.map f) = (applyMask m l).map f := by
  induction m generalizing l with
  | nil => simp
  | cons b m ih =>
      cases l with
      | nil => simp
      | cons a l =>
          rw [List.map_cons, applyMask_cons, applyMask_cons]
          cases b <;> simp [ih]

theorem length_applyMask_le_countTrue (m : List Bool) (l : List α) :
    (applyMask m l).length ≤ (m.filter (fun b => b)).length := by
  induction m generalizing l with
  | nil => simp
  | cons b m ih =>
      cases l with
      | nil => simp
      | cons a l =>
          rw [applyMask_cons, List.filter_cons]
          cases b with
          | false => simpa using Nat.le_trans (ih l) (by simp)
          | true => simpa using ih l

theorem countTrue_map (f : α → Bool) (l : List α) :
    ((l.map f).filter (fun b => b)).length = (l.filter f).length := by
  induction l with
  | nil => rfl
  | cons a l ih =>
      rw [List.map_cons, List.filter_cons, List.filter_cons]
      cases h : f a <;> simp [h, ih]

/-! ## Table access lemmas -/

@[simp] theorem header_updateCol (t : Table) (c : String) (f : Cell → Cell) :
    (updateCol t c f).header = t.header := by
  unfold updateCol; split <;> rfl

@[simp] theorem header_maskTable (m : List Bool) (t : Table) :
    (maskTable m t).header = t.header := rfl

theorem getCol_updateCol_self {t : Table} {c : String} (hc : c ∈ t.header)
    (f : Cell → Cell) :
    getCol (updateCol t c f) c = (getCol t c).map f := by
  unfold updateCol getCol
  rw [if_pos hc]
  simp only
  by_cases h : t.header.indexOf c < t.colData.length
  · rw [List.getD_eq_getElem?_getD, List.getElem?_set_self (by simpa using h)]
    simp [List.getD_eq_getElem?_getD]
  · have hnone : t.colData[t.header.indexOf c]? = none :=
      List.getElem?_eq_none (by omega)
    rw [List.set_eq_of_length_le (by omega)]
    simp [List.getD_eq_getElem?_getD, hnone]

theorem getCol_updateCol_ne {t : Table} {c c' : String} (h : c' ≠ c)
    (f : Cell → Cell) :
    getCol (updateCol t c f) c' = getCol t c' := by
  unfold updateCol getCol
  split
  case isFalse => rfl
  case isTrue hc =>
      simp only
      have hij : t.header.indexOf c' ≠ t.header.indexOf c := by
        intro he
        by_cases hc' : c' ∈ t.header
        · have h2 : t.header[t.header.indexOf c']? = some c' := by
            rw [List.getElem?_eq_getElem (List.indexOf_lt_length.mpr hc'),
              List.getElem_indexOf]
          have h3 : t.header[t.header.indexOf c]? = some c := by
            rw [List.getElem?_eq_getElem (List.indexOf_lt_length.mpr hc),
              List.getElem_indexOf]
          rw [he, h3] at h2
          exact h (Option.some.inj h2).symm
        · have h1 : t.header.indexOf c < t.header.length :=
            List.indexOf_lt_length.mpr hc
          have h2 : ¬ t.header.indexOf c' < t.header.length := by
            simpa [List.indexOf_lt_length] using hc'
          omega
      rw [List.getD_eq_getElem?_getD, List.getElem?_set_ne (fun he => hij he.symm),
        List.getD_eq_getElem?_getD]

theorem getCol_maskTable (m : List Bool) (t : Table) (c : String) :
    getCol (maskTable m t) c = applyMask m (getCol t c) := by
  unfold maskTable getCol
  simp only
  by_cases h : t.header.indexOf c < t.colData.length
  · rw [List.getD_eq_getElem?_getD, List.getElem?_map,
      List.getElem?_eq_getElem (by simpa using h)]
    simp [List.getD_eq_getElem?_getD, List.getElem?_eq_getElem h]
  · rw [List.getD_eq_getElem?_getD, List.getElem?_eq_none (by simpa using (by omega : t.colData.length ≤ t.header.indexOf c)),
      List.getD_eq_getElem?_getD, List.getElem?_eq_none (by omega)]
    simp

theorem updateCol_eq_self {t : Table} {c : String} {f : Cell → Cell}
    (h : c ∈ t.header → ∀ x ∈ getCol t c, f x = x) :
    updateCol t c f = t := by
  unfold updateCol
  split
  case isFalse => rfl
  case isTrue hc =>
      have : (t.colData.getD (t.header.indexOf c) []).map f
          = t.colData.getD (t.header.indexOf c) [] :=
        map_id_of_mem (h hc)
      rw [this, set_getD_self]

/-! ## Idempotence of trimming and of the cell transformations -/

theorem dropWhile_dropWhile (p : α → Bool) (l : List α) :
    List.dropWhile p (List.dropWhile p l) = List.dropWhile p l := by
  induction l with
  | nil => rfl
  | cons a l ih =>
      cases h : p a with
      | true => rw [List.dropWhile_cons_of_pos h]; exact ih
      | false => rw [List.dropWhile_cons_of_neg (by simp [h]),
          List.dropWhile_cons_of_neg (by simp [h])]

theorem head?_dropWhile_false {p : α → Bool} {l : List α} {x : α}
    (h : (List.dropWhile p l).head? = some x) : p x = false := by
  induction l with
  | nil => simp at h
  | cons a l ih =>
      cases hp : p a with
      | true => rw [List.dropWhile_cons_of_pos hp] at h; exact ih h
      | false =>
          rw [List.dropWhile_cons_of_neg (by simp [hp])] at h
          simp only [List.head?_cons, Option.some.injEq] at h
          rw [← h]; exact hp

theorem dropWhile_suffix (p : α → Bool) (l : List α) :
    List.dropWhile p l <:+ l := by
  induction l with
  | nil => exact List.suffix_refl _
  | cons a l ih =>
      cases h : p a with
      | true =>
          rw [List.dropWhile_cons_of_pos h]
          exact ih.trans (List.suffix_cons a l)
      | false => rw [List.dropWhile_cons_of_neg (by simp [h])]

theorem head?_of_prefix {l₁ l₂ : List α} (h : l₁ <+: l₂) (hne : l₁ ≠ []) :
    l₂.head? = l₁.head? := by
  obtain ⟨s, rfl⟩ := h
  cases l₁ with
  | nil => exact absurd rfl hne
  | cons a l => simp

theorem dropWhile_eq_self_of_head {p : α → Bool} {l : List α}
    (h : ∀ x, l.head? = some x → p x = false) :
    List.dropWhile p l = l := by
  cases l with
  | nil => rfl
  | cons a l =>
      exact List.dropWhile_cons_of_neg (by simp [h a rfl])

theorem trimChars_idem (l : List Char) :
    trimChars (trimChars l) = trimChars l := by
  unfold trimChars
  set L := l.dropWhile isSpaceChar with hL
  set R := (L.reverse.dropWhile isSpaceChar).reverse with hR
  have hstep : List.dropWhile isSpaceChar R = R := by
    apply dropWhile_eq_self_of_head
    intro x hx
    have hRne : R ≠ [] := by
      intro he; rw [he] at hx; simp at hx
    have hpre : R <+: L := by
      have h0 : (List.dropWhile isSpaceChar L.reverse).reverse <+: L.reverse.reverse :=
        List.reverse_prefix.mpr (dropWhile_suffix _ _)
      simpa [hR] using h0
    have hLR : L.head? = R.head? := head?_of_prefix hpre hRne
    apply head?_dropWhile_false (l := l) (p := isSpaceChar)
    rw [← hL, hLR, hx]
  rw [hstep, hR, List.reverse_reverse, dropWhile_dropWhile]

theorem pytrim_idem (s : String) : pytrim (pytrim s) = pytrim s := by
  unfold pytrim
  exact congrArg String.mk (trimChars_idem s.data)

/-- `coerceCell` is idempotent: its outputs are numbers or `missing`. -/
theorem coerceCell_idem (x : Cell) : coerceCell (coerceCell x) = coerceCell x := by
  cases x with
  | num q => rfl
  | str s =>
      unfold coerceCell
      cases h : parseDec (pytrim s) <;> simp [h]
  | missing => rfl

theorem mem_of_lookup_eq_some [BEq α] [LawfulBEq α] {l : List (α × β)}
    {k : α} {v : β} (h : l.lookup k = some v) : (k, v) ∈ l := by
  induction l with
  | nil => simp at h
  | cons p l ih =>
      obtain ⟨a, b⟩ := p
      rw [List.lookup_cons] at h
      split at h
      · next heq =>
          have hk : k = a := eq_of_beq heq
          cases h
          exact hk ▸ List.mem_cons_self _ _
      · exact List.mem_cons_of_mem _ (ih h)

/-- Applying `normMapCell mp` twice is the same as applying it once,
provided every canonical label of `mp` normalizes back to itself (checked
by computation for each of the four dictionaries). -/
theorem normMapCell_stable {mp : CatMap}
    (hm : ∀ p ∈ mp, mp.lookup (normCellStr (Cell.str p.2)) = some p.2)
    (x : Cell) : normMapCell mp (normMapCell mp x) = normMapCell mp x := by
  unfold normMapCell
  cases h : mp.lookup (normCellStr x) with
  | none => rw [h]
  | some c =>
      have hmem : (normCellStr x, c) ∈ mp := mem_of_lookup_eq_some h
      have := hm _ hmem
      simp only at this
      rw [this]

theorem weatherMap_stable :
    ∀ p ∈ weatherMap, weatherMap.lookup (normCellStr (Cell.str p.2)) = some p.2 := by
  decide

theorem trafficMap_stable :
    ∀ p ∈ trafficMap, trafficMap.lookup (normCellStr (Cell.str p.2)) = some p.2 := by
  decide

theorem todMap_stable :
    ∀ p ∈ todMap, todMap.lookup (normCellStr (Cell.str p.2)) = some p.2 := by
  decide

theorem vehicleMap_stable :
    ∀ p ∈ vehicleMap, vehicleMap.lookup (normCellStr (Cell.str p.2)) = some p.2 := by
  decide

/-! ## Mode, median and fill lemmas -/

theorem fillWith_none (x : Cell) : fillWith none x = x := by
  unfold fillWith
  split
  · next h => simp [h]
  · rfl

theorem fillWith_ne_missing {m : Cell} (hm : m ≠ Cell.missing) (x : Cell) :
    fillWith (some m) x ≠ Cell.missing := by
  unfold fillWith
  split
  · simpa using hm
  · next h => exact h

theorem le_foldr_max (l : List ℕ) : ∀ a ∈ l, a ≤ l.foldr max 0 := by
  induction l with
  | nil => simp
  | cons b l ih =>
      intro a ha
      rcases List.mem_cons.mp ha with rfl | ha
      · exact le_max_left _ _
      · exact le_trans (ih a ha) (le_max_right _ _)

theorem foldr_max_mem (l : List ℕ) (h : l.foldr max 0 ≠ 0) :
    l.foldr max 0 ∈ l := by
  induction l with
  | nil => simp at h
  | cons b l ih =>
      simp only [List.foldr_cons] at h ⊢
      rcases le_total (l.foldr max 0) b with hb | hb
      · rw [max_eq_left hb]; exact List.mem_cons_self _ _
      · rw [max_eq_right hb] at h ⊢
        exact List.mem_cons_of_mem _ (ih h)

theorem mem_modesOf {col : Col} {m : Cell} (h : m ∈ modesOf col) :
    m ∈ col ∧ m ≠ Cell.missing := by
  unfold modesOf at h
  simp only at h
  have h1 := List.mem_of_mem_filter h
  have h2 := List.mem_dedup.mp h1
  have h3 := List.mem_filter.mp h2
  exact ⟨h3.1, by simpa using h3.2⟩

theorem modeVal_spec {col : Col} {m : Cell} (h : modeVal col = some m) :
    m ∈ col ∧ m ≠ Cell.missing := by
  unfold modeVal at h
  have hmem : m ∈ sortCells (modesOf col) := by
    cases hs : sortCells (modesOf col) with
    | nil => rw [hs] at h; simp at h
    | cons a l => rw [hs] at h; simp only [List.head?_cons, Option.some.injEq] at h; simp [h]
  have : m ∈ modesOf col :=
    ((List.perm_insertionSort _ _).mem_iff).mp hmem
  exact mem_modesOf this

theorem modeVal_eq_none {col : Col} (h : modeVal col = none) :
    ∀ x ∈ col, x = Cell.missing := by
  intro x hx
  by_contra hne
  have hvs : x ∈ col.filter (fun y => y ≠ Cell.missing) :=
    List.mem_filter.mpr ⟨hx, by simpa using hne⟩
  set vs := col.filter (fun y => y ≠ Cell.missing) with hvsdef
  have hd : x ∈ vs.dedup := List.mem_dedup.mpr hvs
  have hcx : 0 < vs.count x := List.count_pos_iff.mpr hvs
  set mx := ((vs.dedup.map (fun v => vs.count v)).foldr max 0) with hmx
  have hle : vs.count x ≤ mx :=
    le_foldr_max _ _ (List.mem_map.mpr ⟨x, hd, rfl⟩)
  have hmx0 : mx ≠ 0 := by omega
  have hmem : mx ∈ vs.dedup.map (fun v => vs.count v) := foldr_max_mem _ hmx0
  obtain ⟨v, hv, hveq⟩ := List.mem_map.mp hmem
  have hmode : v ∈ modesOf col := by
    unfold modesOf
    simp only
    rw [← hvsdef]
    exact List.mem_filter.mpr ⟨hv, by simpa using hveq⟩
  have hnil : sortCells (modesOf col) = [] := by
    unfold modeVal at h
    cases hs : sortCells (modesOf col) with
    | nil => rfl
    | cons a l => rw [hs] at h; simp at h
  have : modesOf col = [] :=
    List.eq_nil_of_length_eq_zero
      (((List.perm_insertionSort _ _).length_eq).symm.trans
        (by rw [← sortCells, hnil]; rfl) : (modesOf col).length = 0)
  rw [this] at hmode
  simp at hmode

theorem medianQ_of_ne_nil {l : List ℚ} (h : l ≠ []) : ∃ q, medianQ l = some q := by
  unfold medianQ
  have : (sortQ l).length ≠ 0 := by
    unfold sortQ
    rw [List.length_insertionSort]
    simpa using h
  simp only
  split
  · omega
  · split <;> exact ⟨_, rfl⟩

/-! ## Column stability under imputation -/

/-- A numeric column the numeric imputation step leaves unchanged: either
nothing is missing, or there is no numeric value to take a median of. -/
def NumColStable (col : Col) : Prop :=
  Cell.missing ∉ col ∨ numVals col = []

/-- A categorical column the mode-imputation step leaves unchanged:
either nothing is missing, or the column is entirely missing. -/
def CatColStable (col : Col) : Prop :=
  Cell.missing ∉ col ∨ ∀ x ∈ col, x = Cell.missing

theorem imputeNum_eq_self {t : Table} {c : String}
    (h : c ∈ t.header → NumColStable (getCol t c)) : imputeNum t c = t := by
  unfold imputeNum
  split
  · next hg =>
      rcases h hg.1 with hnm | hnv
      · exact absurd hg.2 hnm
      · apply updateCol_eq_self
        intro _ x _
        unfold medianFillVal
        rw [hnv]
        exact fillWith_none x
  · rfl

theorem imputeCat_eq_self {t : Table} {c : String}
    (h : c ∈ t.header → CatColStable (getCol t c)) : imputeCat t c = t := by
  unfold imputeCat
  split
  · next hg =>
      rcases h hg.1 with hnm | hall
      · exact absurd hg.2 hnm
      · cases hm : modeVal (getCol t c) with
        | none => rfl
        | some m =>
            obtain ⟨hmem, hne⟩ := modeVal_spec hm
            exact absurd (hall m hmem) hne
  · rfl

/-! ## Headers and columns through the pipeline stages -/

@[simp] theorem header_stripHeader (t : Table) :
    (stripHeader t).header = t.header.map pytrim := rfl

@[simp] theorem colData_stripHeader (t : Table) :
    (stripHeader t).colData = t.colData := rfl

@[simp] theorem header_coerceNumerics (t : Table) :
    (coerceNumerics t).header = t.header := by
  unfold coerceNumerics; simp

@[simp] theorem header_normalizeCats (t : Table) :
    (normalizeCats t).header = t.header := by
  unfold normalizeCats; simp

@[simp] theorem header_dropMissingDT (t : Table) :
    (dropMissingDT t).header = t.header := rfl

@[simp] theorem header_imputeNum (t : Table) (c : String) :
    (imputeNum t c).header = t.header := by
  unfold imputeNum; split <;> simp

@[simp] theorem header_imputeCat (t : Table) (c : String) :
    (imputeCat t c).header = t.header := by
  unfold imputeCat
  split
  · split <;> simp
  · rfl

@[simp] theorem header_imputeNums (t : Table) :
    (imputeNums t).header = t.header := by
  unfold imputeNums; simp

@[simp] theorem header_imputeCats (t : Table) :
    (imputeCats t).header = t.header := by
  unfold imputeCats; simp

theorem getCol_imputeNum_ne {t : Table} {c c' : String} (h : c' ≠ c) :
    getCol (imputeNum t c) c' = getCol t c' := by
  unfold imputeNum
  split
  · exact getCol_updateCol_ne h _
  · rfl

theorem getCol_imputeCat_ne {t : Table} {c c' : String} (h : c' ≠ c) :
    getCol (imputeCat t c) c' = getCol t c' := by
  unfold imputeCat
  split
  · split
    · exact getCol_updateCol_ne h _
    · rfl
  · rfl

theorem getCol_coerceNumerics {t : Table} {c : String}
    (h : c ∉ ["Distance_km", "Courier_Experience_yrs", "Delivery_Time_min"]) :
    getCol (coerceNumerics t) c = getCol t c := by
  unfold coerceNumerics
  simp only [List.mem_cons, List.not_mem_nil, or_false, not_or] at h
  rw [getCol_updateCol_ne h.2.2, getCol_updateCol_ne h.2.1, getCol_updateCol_ne h.1]

theorem getCol_normalizeCats {t : Table} {c : String}
    (h : c ∉ ["Weather", "Traffic_Level", "Time_of_Day", "Vehicle_Type"]) :
    getCol (normalizeCats t) c = getCol t c := by
  unfold normalizeCats
  simp only [List.mem_cons, List.not_mem_nil, or_false, not_or] at h
  rw [getCol_updateCol_ne h.2.2.2, getCol_updateCol_ne h.2.2.1,
    getCol_updateCol_ne h.2.1, getCol_updateCol_ne h.1]

theorem getCol_imputeNums_cat {t : Table} {c : String}
    (h : c ∉ ["Distance_km", "Courier_Experience_yrs"]) :
    getCol (imputeNums t) c = getCol t c := by
  unfold imputeNums
  simp only [List.mem_cons, List.not_mem_nil, or_false, not_or] at h
  rw [getCol_imputeNum_ne h.2, getCol_imputeNum_ne h.1]

theorem getCol_imputeCats_num {t : Table} {c : String}
    (h : c ∉ ["Weather", "Traffic_Level", "Time_of_Day", "Vehicle_Type"]) :
    getCol (imputeCats t) c = getCol t c := by
  unfold imputeCats
  simp only [List.mem_cons, List.not_mem_nil, or_false, not_or] at h
  rw [getCol_imputeCat_ne h.2.2.2, getCol_imputeCat_ne h.2.2.1,
    getCol_imputeCat_ne h.2.1, getCol_imputeCat_ne h.1]

/-- The column that `imputeNum` produces, described pointwise. -/
theorem getCol_imputeNum_self {t : Table} {c : String} (hc : c ∈ t.header) :
    getCol (imputeNum t c) c = getCol t c ∨
      getCol (imputeNum t c) c =
        (getCol t c).map (fillWith (medianFillVal (getCol t c))) := by
  unfold imputeNum
  split
  · exact Or.inr (getCol_updateCol_self hc _)
  · exact Or.inl rfl

/-- The column that `imputeCat` produces, described pointwise. -/
theorem getCol_imputeCat_self {t : Table} {c : String} (hc : c ∈ t.header) :
    getCol (imputeCat t c) c = getCol t c ∨
      ∃ m, modeVal (getCol t c) = some m ∧
        getCol (imputeCat t c) c = (getCol t c).map (fillWith (some m)) := by
  unfold imputeCat
  split
  · cases hm : modeVal (getCol t c) with
    | none => exact Or.inl rfl
    | some m => exact Or.inr ⟨m, rfl, getCol_updateCol_self hc _⟩
  · exact Or.inl rfl

theorem numColStable_imputeNum (t : Table) (c : String) (hc : c ∈ t.header) :
    NumColStable (getCol (imputeNum t c) c) := by
  by_cases hmiss : Cell.missing ∈ getCol t c
  · by_cases hnv : numVals (getCol t c) = []
    · rcases getCol_imputeNum_self hc with h | h <;> rw [h]
      · exact Or.inr hnv
      · right
        have : (getCol t c).map (fillWith (medianFillVal (getCol t c)))
            = getCol t c := by
          apply map_id_of_mem
          intro x _
          unfold medianFillVal
          rw [hnv]
          exact fillWith_none x
        rw [this]
        exact hnv
    · left
      have : imputeNum t c = updateCol t c (fillWith (medianFillVal (getCol t c))) := by
        unfold imputeNum
        rw [if_pos ⟨hc, hmiss⟩]
      rw [this, getCol_updateCol_self hc]
      intro hmem
      obtain ⟨x, _, hx⟩ := List.mem_map.mp hmem
      obtain ⟨q, hq⟩ := medianQ_of_ne_nil hnv
      have : medianFillVal (getCol t c) = some (Cell.num q) := by
        unfold medianFillVal
        rw [hq]
        rfl
      rw [this] at hx
      exact fillWith_ne_missing (by simp) x hx
  · have : imputeNum t c = t := by
      unfold imputeNum
      rw [if_neg (fun hg => hmiss hg.2)]
    rw [this]
    exact Or.inl hmiss

theorem catColStable_imputeCat (t : Table) (c : String) (hc : c ∈ t.header) :
    CatColStable (getCol (imputeCat t c) c) := by
  by_cases hmiss : Cell.missing ∈ getCol t c
  · cases hm : modeVal (getCol t c) with
    | none =>
        have : imputeCat t c = t := by
          unfold imputeCat
          rw [if_pos ⟨hc, hmiss⟩, hm]
        rw [this]
        exact Or.inr (modeVal_eq_none hm)
    | some m =>
        left
        have : imputeCat t c = updateCol t c (fillWith (some m)) := by
          unfold imputeCat
          rw [if_pos ⟨hc, hmiss⟩, hm]
        rw [this, getCol_updateCol_self hc]
        intro hmem
        obtain ⟨x, _, hx⟩ := List.mem_map.mp hmem
        exact fillWith_ne_missing (modeVal_spec hm).2 x hx
  · have : imputeCat t c = t := by
      unfold imputeCat
      rw [if_neg (fun hg => hmiss hg.2)]
    rw [this]
    exact Or.inl hmiss

/-! ## The shape of an auto-cleaned table -/

theorem mem_applyMask {m : List Bool} {l : List α} {x : α}
    (h : x ∈ applyMask m l) : x ∈ l := by
  induction m generalizing l with
  | nil => simp at h
  | cons b m ih =>
      cases l with
      | nil => simp at h
      | cons a l =>
          rw [applyMask_cons] at h
          cases b with
          | false => exact List.mem_cons_of_mem _ (ih (by simpa using h))
          | true =>
              rcases List.mem_cons.mp (by simpa using h) with rfl | h'
              · exact List.mem_cons_self _ _
              · exact List.mem_cons_of_mem _ (ih h')

/-- A column is as coerced: re-coercion does not change it. -/
def ColCoerced (col : Col) : Prop :=
  ∀ x ∈ col, coerceCell x = x

/-- A column is as normalized by `mp`: re-normalization does not change
it. -/
def ColNormStable (mp : CatMap) (col : Col) : Prop :=
  ∀ x ∈ col, normMapCell mp x = x

/-- Everything `autoClean` guarantees about its output — exactly what
makes a second pass of every stage the identity. -/
structure CleanOutput (u : Table) : Prop where
  hdr : u.header.map pytrim = u.header
  dt_mem : "Delivery_Time_min" ∈ u.header
  dt_coerced : ColCoerced (getCol u "Delivery_Time_min")
  dist_coerced : "Distance_km" ∈ u.header → ColCoerced (getCol u "Distance_km")
  exp_coerced : "Courier_Experience_yrs" ∈ u.header →
    ColCoerced (getCol u "Courier_Experience_yrs")
  w_norm : "Weather" ∈ u.header → ColNormStable weatherMap (getCol u "Weather")
  tr_norm : "Traffic_Level" ∈ u.header →
    ColNormStable trafficMap (getCol u "Traffic_Level")
  tod_norm : "Time_of_Day" ∈ u.header →
    ColNormStable todMap (getCol u "Time_of_Day")
  v_norm : "Vehicle_Type" ∈ u.header →
    ColNormStable vehicleMap (getCol u "Vehicle_Type")
  dt_present : Cell.missing ∉ getCol u "Delivery_Time_min"
  col_len : ∀ col ∈ u.colData, col.length ≤ (getCol u "Delivery_Time_min").length
  dist_stable : "Distance_km" ∈ u.header → NumColStable (getCol u "Distance_km")
  exp_stable : "Courier_Experience_yrs" ∈ u.header →
    NumColStable (getCol u "Courier_Experience_yrs")
  w_stable : "Weather" ∈ u.header → CatColStable (getCol u "Weather")
  tr_stable : "Traffic_Level" ∈ u.header →
    CatColStable (getCol u "Traffic_Level")
  tod_stable : "Time_of_Day" ∈ u.header →
    CatColStable (getCol u "Time_of_Day")
  v_stable : "Vehicle_Type" ∈ u.header →
    CatColStable (getCol u "Vehicle_Type")

theorem stripHeader_eq_self {u : Table} (h : u.header.map pytrim = u.header) :
    stripHeader u = u := by
  cases u with
  | mk hd cd =>
      unfold stripHeader
      simp only at h ⊢
      rw [h]

theorem dropMissingDT_eq_self {u : Table}
    (hpres : Cell.missing ∉ getCol u "Delivery_Time_min")
    (hlen : ∀ col ∈ u.colData, col.length ≤ (getCol u "Delivery_Time_min").length) :
    dropMissingDT u = u := by
  have hmask : ∀ b ∈ dtMask u, b = true := by
    intro b hb
    obtain ⟨x, hx, hbx⟩ := List.mem_map.mp hb
    have : x ≠ Cell.missing := fun he => hpres (he ▸ hx)
    rw [← hbx]
    simpa using this
  have hmlen : (dtMask u).length = (getCol u "Delivery_Time_min").length := by
    unfold dtMask
    rw [List.length_map]
  unfold dropMissingDT maskTable
  cases u with
  | mk hd cd =>
      simp only
      rw [map_id_of_mem]
      intro col hcol
      exact applyMask_all_true hmask ((hlen col hcol).trans hmlen.ge)

/-- A clean output is a fixed point of every stage, hence of the whole
auto-clean transformation. -/
theorem cleanOutput_fixed {u : Table} (h : CleanOutput u) :
    autoClean u = Except.ok u := by
  have hstrip : stripHeader u = u := stripHeader_eq_self h.hdr
  have hco : coerceNumerics u = u := by
    unfold coerceNumerics
    rw [updateCol_eq_self h.dist_coerced,
      updateCol_eq_self h.exp_coerced,
      updateCol_eq_self (fun _ => h.dt_coerced)]
  have hnc : normalizeCats u = u := by
    unfold normalizeCats
    rw [updateCol_eq_self h.w_norm,
      updateCol_eq_self h.tr_norm,
      updateCol_eq_self h.tod_norm,
      updateCol_eq_self h.v_norm]
  have hdrop : dropMissingDT u = u := dropMissingDT_eq_self h.dt_present h.col_len
  have hin : imputeNums u = u := by
    unfold imputeNums
    rw [imputeNum_eq_self h.dist_stable,
      imputeNum_eq_self h.exp_stable]
  have hic : imputeCats u = u := by
    unfold imputeCats
    rw [imputeCat_eq_self h.w_stable,
      imputeCat_eq_self h.tr_stable,
      imputeCat_eq_self h.tod_stable,
      imputeCat_eq_self h.v_stable]
  unfold autoClean
  rw [hstrip, hco, hnc]
  rw [if_pos h.dt_mem, hdrop, hin, hic]

theorem autoClean_ok_elim {t u : Table} (h : autoClean t = Except.ok u) :
    "Delivery_Time_min" ∈ (stripHeader t).header ∧
      u = imputeCats (imputeNums (dropMissingDT
        (normalizeCats (coerceNumerics (stripHeader t))))) := by
  simp only [autoClean] at h
  split at h
  · next hg =>
      refine ⟨?_, (Except.ok.inj h).symm⟩
      simpa using hg
  · cases h

theorem getCol_dropMissingDT_dt (t3 : Table) :
    getCol (dropMissingDT t3) "Delivery_Time_min"
      = (getCol t3 "Delivery_Time_min").filter (fun x => x ≠ Cell.missing) := by
  unfold dropMissingDT dtMask
  rw [getCol_maskTable]
  exact applyMask_map_self _ _

theorem getCol_coerce_dt {t1 : Table} (h : "Delivery_Time_min" ∈ t1.header) :
    getCol (coerceNumerics t1) "Delivery_Time_min"
      = (getCol t1 "Delivery_Time_min").map coerceCell := by
  unfold coerceNumerics
  rw [getCol_updateCol_self (by simpa using h), getCol_updateCol_ne (by decide),
    getCol_updateCol_ne (by decide)]

theorem getCol_coerce_dist {t1 : Table} (h : "Distance_km" ∈ t1.header) :
    getCol (coerceNumerics t1) "Distance_km"
      = (getCol t1 "Distance_km").map coerceCell := by
  unfold coerceNumerics
  rw [getCol_updateCol_ne (by decide), getCol_updateCol_ne (by decide),
    getCol_updateCol_self h]

theorem getCol_coerce_exp {t1 : Table} (h : "Courier_Experience_yrs" ∈ t1.header) :
    getCol (coerceNumerics t1) "Courier_Experience_yrs"
      = (getCol t1 "Courier_Experience_yrs").map coerceCell := by
  unfold coerceNumerics
  rw [getCol_updateCol_ne (by decide), getCol_updateCol_self (by simpa using h),
    getCol_updateCol_ne (by decide)]

theorem getCol_norm_w {t2 : Table} (h : "Weather" ∈ t2.header) :
    getCol (normalizeCats t2) "Weather"
      = (getCol t2 "Weather").map (normMapCell weatherMap) := by
  unfold normalizeCats
  rw [getCol_updateCol_ne (by decide), getCol_updateCol_ne (by decide),
    getCol_updateCol_ne (by decide), getCol_updateCol_self h]

theorem getCol_norm_tr {t2 : Table} (h : "Traffic_Level" ∈ t2.header) :
    getCol (normalizeCats t2) "Traffic_Level"
      = (getCol t2 "Traffic_Level").map (normMapCell trafficMap) := by
  unfold normalizeCats
  rw [getCol_updateCol_ne (by decide), getCol_updateCol_ne (by decide),
    getCol_updateCol_self (by simpa using h), getCol_updateCol_ne (by decide)]

theorem getCol_norm_tod {t2 : Table} (h : "Time_of_Day" ∈ t2.header) :
    getCol (normalizeCats t2) "Time_of_Day"
      = (getCol t2 "Time_of_Day").map (normMapCell todMap) := by
  unfold normalizeCats
  rw [getCol_updateCol_ne (by decide), getCol_updateCol_self (by simpa using h),
    getCol_updateCol_ne (by decide), getCol_updateCol_ne (by decide)]

theorem getCol_norm_v {t2 : Table} (h : "Vehicle_Type" ∈ t2.header) :
    getCol (normalizeCats t2) "Vehicle_Type"
      = (getCol t2 "Vehicle_Type").map (normMapCell vehicleMap) := by
  unfold normalizeCats
  rw [getCol_updateCol_self (by simpa using h), getCol_updateCol_ne (by decide),
    getCol_updateCol_ne (by decide), getCol_updateCol_ne (by decide)]

/-! ## Pointwise stability of the produced columns -/

theorem colCoerced_map_coerce (l : Col) : ColCoerced (l.map coerceCell) := by
  intro x hx
  obtain ⟨y, _, rfl⟩ := List.mem_map.mp hx
  exact coerceCell_idem y

theorem colCoerced_applyMask {m : List Bool} {col : Col}
    (h : ColCoerced col) : ColCoerced (applyMask m col) :=
  fun x hx => h x (mem_applyMask hx)

theorem colCoerced_filter {p : Cell → Bool} {col : Col}
    (h : ColCoerced col) : ColCoerced (col.filter p) :=
  fun x hx => h x (List.mem_of_mem_filter hx)

theorem colCoerced_map_fill {col col' : Col} (h : ColCoerced col) :
    ColCoerced (col.map (fillWith (medianFillVal col'))) := by
  intro x hx
  obtain ⟨y, hy, rfl⟩ := List.mem_map.mp hx
  cases hv : medianFillVal col' with
  | none => rw [fillWith_none]; exact h y hy
  | some v =>
      obtain ⟨q, rfl⟩ : ∃ q, v = Cell.num q := by
        unfold medianFillVal at hv
        cases hq : medianQ (numVals col') with
        | none => rw [hq] at hv; cases hv
        | some q =>
            rw [hq] at hv
            simp only [Option.map_some'] at hv
            exact ⟨q, (Option.some.inj hv).symm⟩
      unfold fillWith
      split
      · rfl
      · exact h y hy

theorem colNormStable_map_norm {mp : CatMap}
    (hm : ∀ p ∈ mp, mp.lookup (normCellStr (Cell.str p.2)) = some p.2)
    (l : Col) : ColNormStable mp (l.map (normMapCell mp)) := by
  intro x hx
  obtain ⟨y, _, rfl⟩ := List.mem_map.mp hx
  exact normMapCell_stable hm y

theorem colNormStable_applyMask {mp : CatMap} {m : List Bool} {col : Col}
    (h : ColNormStable mp col) : ColNormStable mp (applyMask m col) :=
  fun x hx => h x (mem_applyMask hx)

theorem colNormStable_map_fill {mp : CatMap} {col : Col} {m : Cell}
    (h : ColNormStable mp col) (hm : normMapCell mp m = m) :
    ColNormStable mp (col.map (fillWith (some m))) := by
  intro x hx
  obtain ⟨y, hy, rfl⟩ := List.mem_map.mp hx
  unfold fillWith
  split
  · simpa using hm
  · exact h y hy

/-! ## Column-length bounds through the stages -/

theorem getD_len_bound {cd : List Col} {n : ℕ}
    (hb : ∀ col ∈ cd, col.length ≤ n) (i : ℕ) :
    (cd.getD i []).length ≤ n := by
  by_cases h : i < cd.length
  · rw [List.getD_eq_getElem?_getD, List.getElem?_eq_getElem h]
    exact hb _ (List.getElem_mem h)
  · rw [List.getD_eq_getElem?_getD, List.getElem?_eq_none (by omega)]
    simp

theorem updateCol_len_bound {t : Table} {c : String} {f : Cell → Cell} {n : ℕ}
    (hb : ∀ col ∈ t.colData, col.length ≤ n) :
    ∀ col ∈ (updateCol t c f).colData, col.length ≤ n := by
  unfold updateCol
  split
  · intro col hcol
    rcases List.mem_or_eq_of_mem_set hcol with h | rfl
    · exact hb _ h
    · rw [List.length_map]
      exact getD_len_bound hb _
  · exact hb

theorem imputeNum_len_bound {t : Table} {c : String} {n : ℕ}
    (hb : ∀ col ∈ t.colData, col.length ≤ n) :
    ∀ col ∈ (imputeNum t c).colData, col.length ≤ n := by
  unfold imputeNum
  split
  · exact updateCol_len_bound hb
  · exact hb

theorem imputeCat_len_bound {t : Table} {c : String} {n : ℕ}
    (hb : ∀ col ∈ t.colData, col.length ≤ n) :
    ∀ col ∈ (imputeCat t c).colData, col.length ≤ n := by
  unfold imputeCat
  split
  · split
    · exact updateCol_len_bound hb
    · exact hb
  · exact hb

theorem getCol_dropMissingDT (t3 : Table) (c : String) :
    getCol (dropMissingDT t3) c = applyMask (dtMask t3) (getCol t3 c) :=
  getCol_maskTable _ _ _

theorem getCol_imputeNums_dist (t : Table) :
    getCol (imputeNums t) "Distance_km" = getCol (imputeNum t "Distance_km") "Distance_km" := by
  unfold imputeNums
  exact getCol_imputeNum_ne (by decide)

theorem getCol_imputeNums_exp (t : Table) :
    getCol (imputeNums t) "Courier_Experience_yrs"
      = getCol (imputeNum (imputeNum t "Distance_km") "Courier_Experience_yrs")
          "Courier_Experience_yrs" := rfl

theorem getCol_imputeCats_w (t : Table) :
    getCol (imputeCats t) "Weather" = getCol (imputeCat t "Weather") "Weather" := by
  unfold imputeCats
  rw [getCol_imputeCat_ne (by decide), getCol_imputeCat_ne (by decide),
    getCol_imputeCat_ne (by decide)]

theorem getCol_imputeCats_tr (t : Table) :
    getCol (imputeCats t) "Traffic_Level"
      = getCol (imputeCat (imputeCat t "Weather") "Traffic_Level") "Traffic_Level" := by
  unfold imputeCats
  rw [getCol_imputeCat_ne (by decide), getCol_imputeCat_ne (by decide)]

theorem getCol_imputeCats_tod (t : Table) :
    getCol (imputeCats t) "Time_of_Day"
      = getCol (imputeCat (imputeCat (imputeCat t "Weather") "Traffic_Level")
          "Time_of_Day") "Time_of_Day" := by
  unfold imputeCats
  rw [getCol_imputeCat_ne (by decide)]

theorem getCol_imputeCats_v (t : Table) :
    getCol (imputeCats t) "Vehicle_Type"
      = getCol (imputeCat (imputeCat (imputeCat (imputeCat t "Weather")
          "Traffic_Level") "Time_of_Day") "Vehicle_Type") "Vehicle_Type" := rfl

/-- The output of the raw-branch body is a `CleanOutput`, for any
stripped input table that has the delivery-time column. -/
theorem cleanOutput_core (t1 : Table) (hDT : "Delivery_Time_min" ∈ t1.header)
    (hhdr : t1.header.map pytrim = t1.header) :
    CleanOutput (imputeCats (imputeNums (dropMissingDT
      (normalizeCats (coerceNumerics t1))))) := by
  set t2 := coerceNumerics t1 with ht2
  set t3 := normalizeCats t2 with ht3
  set t4 := dropMissingDT t3 with ht4
  set t5 := imputeNums t4 with ht5
  set uu := imputeCats t5 with huu
  have hh2 : t2.header = t1.header := by rw [ht2, header_coerceNumerics]
  have hh3 : t3.header = t1.header := by rw [ht3, header_normalizeCats, hh2]
  have hh4 : t4.header = t1.header := by rw [ht4, header_dropMissingDT, hh3]
  have hh5 : t5.header = t1.header := by rw [ht5, header_imputeNums, hh4]
  have hhu : uu.header = t1.header := by rw [huu, header_imputeCats, hh5]
  have cDT3 : getCol t3 "Delivery_Time_min"
      = (getCol t1 "Delivery_Time_min").map coerceCell := by
    rw [ht3, getCol_normalizeCats (by decide), ht2, getCol_coerce_dt hDT]
  have cDT4 : getCol t4 "Delivery_Time_min"
      = ((getCol t1 "Delivery_Time_min").map coerceCell).filter
          (fun x => x ≠ Cell.missing) := by
    rw [ht4, getCol_dropMissingDT_dt, cDT3]
  have cDTu : getCol uu "Delivery_Time_min" = getCol t4 "Delivery_Time_min" := by
    rw [huu, getCol_imputeCats_num (by decide), ht5,
      getCol_imputeNums_cat (by decide)]
  refine { hdr := ?_, dt_mem := ?_, dt_coerced := ?_, dist_coerced := ?_,
           exp_coerced := ?_, w_norm := ?_, tr_norm := ?_, tod_norm := ?_,
           v_norm := ?_, dt_present := ?_, col_len := ?_, dist_stable := ?_,
           exp_stable := ?_, w_stable := ?_, tr_stable := ?_,
           tod_stable := ?_, v_stable := ?_ }
  · rw [hhu, hhdr]
  · rw [hhu]; exact hDT
  · rw [cDTu, cDT4]
    exact colCoerced_filter (colCoerced_map_coerce _)
  · intro hD
    rw [hhu] at hD
    have hD4 : "Distance_km" ∈ t4.header := by rw [hh4]; exact hD
    have cDcol3 : getCol t3 "Distance_km"
        = (getCol t1 "Distance_km").map coerceCell := by
      rw [ht3, getCol_normalizeCats (by decide), ht2, getCol_coerce_dist hD]
    have cD4 : getCol t4 "Distance_km"
        = applyMask (dtMask t3) ((getCol t1 "Distance_km").map coerceCell) := by
      rw [ht4, getCol_dropMissingDT, cDcol3]
    have base : ColCoerced (getCol t4 "Distance_km") := by
      rw [cD4]
      exact colCoerced_applyMask (colCoerced_map_coerce _)
    have cDu : getCol uu "Distance_km"
        = getCol (imputeNum t4 "Distance_km") "Distance_km" := by
      rw [huu, getCol_imputeCats_num (by decide), ht5, getCol_imputeNums_dist]
    rcases getCol_imputeNum_self hD4 (c := "Distance_km") with hc | hc
    · rw [cDu, hc]; exact base
    · rw [cDu, hc]; exact colCoerced_map_fill base
  · intro hE
    rw [hhu] at hE
    have hE4d : "Courier_Experience_yrs" ∈ (imputeNum t4 "Distance_km").header := by
      rw [header_imputeNum, hh4]; exact hE
    have cEcol3 : getCol t3 "Courier_Experience_yrs"
        = (getCol t1 "Courier_Experience_yrs").map coerceCell := by
      rw [ht3, getCol_normalizeCats (by decide), ht2, getCol_coerce_exp hE]
    have cE4 : getCol t4 "Courier_Experience_yrs"
        = applyMask (dtMask t3)
            ((getCol t1 "Courier_Experience_yrs").map coerceCell) := by
      rw [ht4, getCol_dropMissingDT, cEcol3]
    have cE4d : getCol (imputeNum t4 "Distance_km") "Courier_Experience_yrs"
        = getCol t4 "Courier_Experience_yrs" := getCol_imputeNum_ne (by decide)
    have base : ColCoerced (getCol (imputeNum t4 "Distance_km")
        "Courier_Experience_yrs") := by
      rw [cE4d, cE4]
      exact colCoerced_applyMask (colCoerced_map_coerce _)
    have cEu : getCol uu "Courier_Experience_yrs"
        = getCol (imputeNum (imputeNum t4 "Distance_km") "Courier_Experience_yrs")
            "Courier_Experience_yrs" := by
      rw [huu, getCol_imputeCats_num (by decide), ht5, getCol_imputeNums_exp]
    rcases getCol_imputeNum_self hE4d (c := "Courier_Experience_yrs") with hc | hc
    · rw [cEu, hc]; exact base
    · rw [cEu, hc]; exact colCoerced_map_fill base
  · intro hW
    rw [hhu] at hW
    have hW5 : "Weather" ∈ t5.header := by rw [hh5]; exact hW
    have cWcol3 : getCol t3 "Weather"
        = (getCol t1 "Weather").map (normMapCell weatherMap) := by
      rw [ht3, getCol_norm_w (by rw [hh2]; exact hW), ht2,
        getCol_coerceNumerics (by decide)]
    have cW4 : getCol t4 "Weather"
        = applyMask (dtMask t3) ((getCol t1 "Weather").map (normMapCell weatherMap)) := by
      rw [ht4, getCol_dropMissingDT, cWcol3]
    have cW5 : getCol t5 "Weather" = getCol t4 "Weather" := by
      rw [ht5, getCol_imputeNums_cat (by decide)]
    have base : ColNormStable weatherMap (getCol t5 "Weather") := by
      rw [cW5, cW4]
      exact colNormStable_applyMask (colNormStable_map_norm weatherMap_stable _)
    have cWu : getCol uu "Weather" = getCol (imputeCat t5 "Weather") "Weather" := by
      rw [huu, getCol_imputeCats_w]
    rcases getCol_imputeCat_self hW5 (c := "Weather") with hc | ⟨mv, hmv, hc⟩
    · rw [cWu, hc]; exact base
    · rw [cWu, hc]
      exact colNormStable_map_fill base (base mv (modeVal_spec hmv).1)
  · intro hT
    rw [hhu] at hT
    have hTX : "Traffic_Level" ∈ (imputeCat t5 "Weather").header := by
      rw [header_imputeCat, hh5]; exact hT
    have cTcol3 : getCol t3 "Traffic_Level"
        = (getCol t1 "Traffic_Level").map (normMapCell trafficMap) := by
      rw [ht3, getCol_norm_tr (by rw [hh2]; exact hT), ht2,
        getCol_coerceNumerics (by decide)]
    have cT4 : getCol t4 "Traffic_Level"
        = applyMask (dtMask t3)
            ((getCol t1 "Traffic_Level").map (normMapCell trafficMap)) := by
      rw [ht4, getCol_dropMissingDT, cTcol3]
    have cT5 : getCol t5 "Traffic_Level" = getCol t4 "Traffic_Level" := by
      rw [ht5, getCol_imputeNums_cat (by decide)]
    have cTX : getCol (imputeCat t5 "Weather") "Traffic_Level"
        = getCol t5 "Traffic_Level" := getCol_imputeCat_ne (by decide)
    have base : ColNormStable trafficMap
        (getCol (imputeCat t5 "Weather") "Traffic_Level") := by
      rw [cTX, cT5, cT4]
      exact colNormStable_applyMask (colNormStable_map_norm trafficMap_stable _)
    have cTu : getCol uu "Traffic_Level"
        = getCol (imputeCat (imputeCat t5 "Weather") "Traffic_Level")
            "Traffic_Level" := by
      rw [huu, getCol_imputeCats_tr]
    rcases getCol_imputeCat_self hTX (c := "Traffic_Level") with hc | ⟨mv, hmv, hc⟩
    · rw [cTu, hc]; exact base
    · rw [cTu, hc]
      exact colNormStable_map_fill base (base mv (modeVal_spec hmv).1)
  · intro hTo
    rw [hhu] at hTo
    have hToX : "Time_of_Day" ∈ (imputeCat (imputeCat t5 "Weather")
        "Traffic_Level").header := by
      rw [header_imputeCat, header_imputeCat, hh5]; exact hTo
    have cTocol3 : getCol t3 "Time_of_Day"
        = (getCol t1 "Time_of_Day").map (normMapCell todMap) := by
      rw [ht3, getCol_norm_tod (by rw [hh2]; exact hTo), ht2,
        getCol_coerceNumerics (by decide)]
    have cTo4 : getCol t4 "Time_of_Day"
        = applyMask (dtMask t3) ((getCol t1 "Time_of_Day").map (normMapCell todMap)) := by
      rw [ht4, getCol_dropMissingDT, cTocol3]
    have cTo5 : getCol t5 "Time_of_Day" = getCol t4 "Time_of_Day" := by
      rw [ht5, getCol_imputeNums_cat (by decide)]
    have cToX : getCol (imputeCat (imputeCat t5 "Weather") "Traffic_Level")
        "Time_of_Day" = getCol t5 "Time_of_Day" := by
      rw [getCol_imputeCat_ne (by decide), getCol_imputeCat_ne (by decide)]
    have base : ColNormStable todMap
        (getCol (imputeCat (imputeCat t5 "Weather") "Traffic_Level")
          "Time_of_Day") := by
      rw [cToX, cTo5, cTo4]
      exact colNormStable_applyMask (colNormStable_map_norm todMap_stable _)
    have cTou : getCol uu "Time_of_Day"
        = getCol (imputeCat (imputeCat (imputeCat t5 "Weather") "Traffic_Level")
            "Time_of_Day") "Time_of_Day" := by
      rw [huu, getCol_imputeCats_tod]
    rcases getCol_imputeCat_self hToX (c := "Time_of_Day") with hc | ⟨mv, hmv, hc⟩
    · rw [cTou, hc]; exact base
    · rw [cTou, hc]
      exact colNormStable_map_fill base (base mv (modeVal_spec hmv).1)
  · intro hV
    rw [hhu] at hV
    have hVX : "Vehicle_Type" ∈ (imputeCat (imputeCat (imputeCat t5 "Weather")
        "Traffic_Level") "Time_of_Day").header := by
      rw [header_imputeCat, header_imputeCat, header_imputeCat, hh5]; exact hV
    have cVcol3 : getCol t3 "Vehicle_Type"
        = (getCol t1 "Vehicle_Type").map (normMapCell vehicleMap) := by
      rw [ht3, getCol_norm_v (by rw [hh2]; exact hV), ht2,
        getCol_coerceNumerics (by decide)]
    have cV4 : getCol t4 "Vehicle_Type"
        = applyMask (dtMask t3)
            ((getCol t1 "Vehicle_Type").map (normMapCell vehicleMap)) := by
      rw [ht4, getCol_dropMissingDT, cVcol3]
    have cV5 : getCol t5 "Vehicle_Type" = getCol t4 "Vehicle_Type" := by
      rw [ht5, getCol_imputeNums_cat (by decide)]
    have cVX : getCol (imputeCat (imputeCat (imputeCat t5 "Weather")
        "Traffic_Level") "Time_of_Day") "Vehicle_Type"
        = getCol t5 "Vehicle_Type" := by
      rw [getCol_imputeCat_ne (by decide), getCol_imputeCat_ne (by decide),
        getCol_imputeCat_ne (by decide)]
    have base : ColNormStable vehicleMap
        (getCol (imputeCat (imputeCat (imputeCat t5 "Weather") "Traffic_Level")
          "Time_of_Day") "Vehicle_Type") := by
      rw [cVX, cV5, cV4]
      exact colNormStable_applyMask (colNormStable_map_norm vehicleMap_stable _)
    have cVu : getCol uu "Vehicle_Type"
        = getCol (imputeCat (imputeCat (imputeCat (imputeCat t5 "Weather")
            "Traffic_Level") "Time_of_Day") "Vehicle_Type") "Vehicle_Type" := by
      rw [huu, getCol_imputeCats_v]
    rcases getCol_imputeCat_self hVX (c := "Vehicle_Type") with hc | ⟨mv, hmv, hc⟩
    · rw [cVu, hc]; exact base
    · rw [cVu, hc]
      exact colNormStable_map_fill base (base mv (modeVal_spec hmv).1)
  · rw [cDTu, cDT4]
    intro hmem
    have := (List.mem_filter.mp hmem).2
    simp at this
  · set n := (getCol uu "Delivery_Time_min").length with hn
    have hcntT : ((dtMask t3).filter (fun b => b)).length = n := by
      rw [hn, cDTu, ht4, getCol_dropMissingDT_dt]
      unfold dtMask
      exact countTrue_map _ _
    have h4len : ∀ col ∈ t4.colData, col.length ≤ n := by
      intro col hcol
      rw [ht4] at hcol
      unfold dropMissingDT maskTable at hcol
      simp only at hcol
      obtain ⟨col', _, rfl⟩ := List.mem_map.mp hcol
      exact (length_applyMask_le_countTrue _ _).trans hcntT.le
    have h5len : ∀ col ∈ t5.colData, col.length ≤ n := by
      rw [ht5]
      unfold imputeNums
      exact imputeNum_len_bound (imputeNum_len_bound h4len)
    rw [huu]
    unfold imputeCats
    exact imputeCat_len_bound (imputeCat_len_bound
      (imputeCat_len_bound (imputeCat_len_bound h5len)))
  · intro hD
    rw [hhu] at hD
    have hD4 : "Distance_km" ∈ t4.header := by rw [hh4]; exact hD
    have cDu : getCol uu "Distance_km"
        = getCol (imputeNum t4 "Distance_km") "Distance_km" := by
      rw [huu, getCol_imputeCats_num (by decide), ht5, getCol_imputeNums_dist]
    rw [cDu]
    exact numColStable_imputeNum t4 "Distance_km" hD4
  · intro hE
    rw [hhu] at hE
    have hE4d : "Courier_Experience_yrs" ∈ (imputeNum t4 "Distance_km").header := by
      rw [header_imputeNum, hh4]; exact hE
    have cEu : getCol uu "Courier_Experience_yrs"
        = getCol (imputeNum (imputeNum t4 "Distance_km") "Courier_Experience_yrs")
            "Courier_Experience_yrs" := by
      rw [huu, getCol_imputeCats_num (by decide), ht5, getCol_imputeNums_exp]
    rw [cEu]
    exact numColStable_imputeNum _ "Courier_Experience_yrs" hE4d
  · intro hW
    rw [hhu] at hW
    have hW5 : "Weather" ∈ t5.header := by rw [hh5]; exact hW
    have cWu : getCol uu "Weather" = getCol (imputeCat t5 "Weather") "Weather" := by
      rw [huu, getCol_imputeCats_w]
    rw [cWu]
    exact catColStable_imputeCat t5 "Weather" hW5
  · intro hT
    rw [hhu] at hT
    have hTX : "Traffic_Level" ∈ (imputeCat t5 "Weather").header := by
      rw [header_imputeCat, hh5]; exact hT
    have cTu : getCol uu "Traffic_Level"
        = getCol (imputeCat (imputeCat t5 "Weather") "Traffic_Level")
            "Traffic_Level" := by
      rw [huu, getCol_imputeCats_tr]
    rw [cTu]
    exact catColStable_imputeCat _ "Traffic_Level" hTX
  · intro hTo
    rw [hhu] at hTo
    have hToX : "Time_of_Day" ∈ (imputeCat (imputeCat t5 "Weather")
        "Traffic_Level").header := by
      rw [header_imputeCat, header_imputeCat, hh5]; exact hTo
    have cTou : getCol uu "Time_of_Day"
        = getCol (imputeCat (imputeCat (imputeCat t5 "Weather") "Traffic_Level")
            "Time_of_Day") "Time_of_Day" := by
      rw [huu, getCol_imputeCats_tod]
    rw [cTou]
    exact catColStable_imputeCat _ "Time_of_Day" hToX
  · intro hV
    rw [hhu] at hV
    have hVX : "Vehicle_Type" ∈ (imputeCat (imputeCat (imputeCat t5 "Weather")
        "Traffic_Level") "Time_of_Day").header := by
      rw [header_imputeCat, header_imputeCat, header_imputeCat, hh5]; exact hV
    have cVu : getCol uu "Vehicle_Type"
        = getCol (imputeCat (imputeCat (imputeCat (imputeCat t5 "Weather")
            "Traffic_Level") "Time_of_Day") "Vehicle_Type") "Vehicle_Type" := by
      rw [huu, getCol_imputeCats_v]
    rw [cVu]
    exact catColStable_imputeCat _ "Vehicle_Type" hVX

/-- Whatever `autoClean` accepts, it outputs a `CleanOutput`. -/
theorem autoClean_cleanOutput {t u : Table} (h : autoClean t = Except.ok u) :
    CleanOutput u := by
  obtain ⟨hDT, hu⟩ := autoClean_ok_elim h
  have hhdr : (stripHeader t).header.map pytrim = (stripHeader t).header := by
    rw [header_stripHeader, List.map_map]
    exact List.map_congr_left (fun a _ => pytrim_idem a)
  rw [hu]
  exact cleanOutput_core (stripHeader t) hDT hhdr

theorem autoClean_header {t u : Table} (h : autoClean t = Except.ok u) :
    u.header = t.header.map pytrim := by
  obtain ⟨_, hu⟩ := autoClean_ok_elim h
  rw [hu]
  simp

/-! ## The claims -/

/-- Input for the C1 counterexample: a raw table whose Weather value
`"storm"` is not in the dictionary. -/
def tC1 : Table :=
  ⟨["Delivery_Time_min", "Weather"], [[Cell.num 30], [Cell.str "storm"]]⟩

/-- The auto-cleaned C1 table: `"storm"` survives as raw text. -/
def uC1 : Table :=
  ⟨["Delivery_Time_min", "Weather"], [[Cell.num 30], [Cell.str "storm"]]⟩

/-- C1 counterexample: on the auto-clean path the unmapped raw value
`"storm"` is NOT turned into a missing marker — line 42's
`.fillna(df[col])` restores the original text — so a non-missing,
non-canonical value survives normalization, contradicting the claim. -/
theorem claim_C1_counterexample :
    autoClean tC1 = Except.ok uC1 ∧
    Cell.str "storm" ∈ getCol uC1 "Weather" ∧
    Cell.str "storm" ≠ Cell.missing ∧
    "storm" ∉ weatherMap.map Prod.snd := by
  decide

/-- C1 (amended): for every categorical dictionary and raw cell, either
the trimmed/lower-cased text is found in the dictionary and the cell
becomes that canonical label (a member of the dictionary's label set), or
it is not found and the cell is kept UNCHANGED (raw text preserved, no
crash, no missing marker). -/
theorem claim_C1 (mp : CatMap) (x : Cell) :
    (∃ c, mp.lookup (normCellStr x) = some c ∧ normMapCell mp x = Cell.str c ∧
      c ∈ mp.map Prod.snd) ∨
    (mp.lookup (normCellStr x) = none ∧ normMapCell mp x = x) := by
  cases h : mp.lookup (normCellStr x) with
  | none =>
      refine Or.inr ⟨rfl, ?_⟩
      unfold normMapCell
      rw [h]
  | some c =>
      refine Or.inl ⟨c, rfl, ?_, ?_⟩
      · unfold normMapCell
        rw [h]
      · exact List.mem_map.mpr ⟨_, mem_of_lookup_eq_some h, rfl⟩

/-- C3: in every auto-cleaned Dataset the delivery-time column is exactly
the coerced original values with the missing ones FILTERED out (never
filled), so no Record has a missing delivery time. -/
theorem claim_C3 (t u : Table) (h : autoClean t = Except.ok u) :
    getCol u "Delivery_Time_min"
      = ((getCol (stripHeader t) "Delivery_Time_min").map coerceCell).filter
          (fun x => x ≠ Cell.missing) ∧
    Cell.missing ∉ getCol u "Delivery_Time_min" := by
  obtain ⟨hDT, hu⟩ := autoClean_ok_elim h
  have hcol : getCol u "Delivery_Time_min"
      = ((getCol (stripHeader t) "Delivery_Time_min").map coerceCell).filter
          (fun x => x ≠ Cell.missing) := by
    rw [hu, getCol_imputeCats_num (by decide), getCol_imputeNums_cat (by decide),
      getCol_dropMissingDT_dt, getCol_normalizeCats (by decide),
      getCol_coerce_dt hDT]
  refine ⟨hcol, ?_⟩
  rw [hcol]
  intro hmem
  have h2 := (List.mem_filter.mp hmem).2
  simp at h2

/-- Input for the C3 witness. -/
def tC3 : Table :=
  ⟨["Delivery_Time_min"], [[Cell.num 5, Cell.missing, Cell.str "7"]]⟩

/-- Auto-clean output for the C3 witness. -/
def uC3 : Table :=
  ⟨["Delivery_Time_min"], [[Cell.num 5, Cell.num 7]]⟩

theorem claim_C3_witness :
    getCol uC3 "Delivery_Time_min"
      = ((getCol (stripHeader tC3) "Delivery_Time_min").map coerceCell).filter
          (fun x => x ≠ Cell.missing) ∧
    Cell.missing ∉ getCol uC3 "Delivery_Time_min" :=
  claim_C3 tC3 uC3 (by decide)

/-- C4: the auto-clean transformation is idempotent — applied to its own
output it returns that output unchanged. -/
theorem claim_C4 (t u : Table) (h : autoClean t = Except.ok u) :
    autoClean u = Except.ok u :=
  cleanOutput_fixed (autoClean_cleanOutput h)

/-- Input for the C4 witness. -/
def tC4 : Table :=
  ⟨["Delivery_Time_min", "Weather"],
   [[Cell.num 30, Cell.missing], [Cell.str " sunny ", Cell.str "mist"]]⟩

/-- Auto-clean output for the C4 witness. -/
def uC4 : Table :=
  ⟨["Delivery_Time_min", "Weather"], [[Cell.num 30], [Cell.str "Sunny"]]⟩

theorem claim_C4_witness : autoClean uC4 = Except.ok uC4 :=
  claim_C4 tC4 uC4 (by decide)

/-- C5: the numeric range predicate of the filter (`Series.between`) is
inclusive at both endpoints: a record whose value equals the lower or the
upper bound passes that dimension. -/
theorem claim_C5 (lo hi : ℚ) (h : lo ≤ hi) :
    betweenCell lo hi (Cell.num lo) = true ∧
    betweenCell lo hi (Cell.num hi) = true := by
  unfold betweenCell
  simp [h, le_refl]

theorem claim_C5_witness :
    betweenCell 1 2 (Cell.num 1) = true ∧ betweenCell 1 2 (Cell.num 2) = true :=
  claim_C5 1 2 (by norm_num)

/-- The C8 view: five records with delivery times `[30, 45, 45, 60, 90]`. -/
def t8 : Table :=
  ⟨["Delivery_Time_min"],
   [[Cell.num 30, Cell.num 45, Cell.num 45, Cell.num 60, Cell.num 90]]⟩

/-- C8: on the concrete view with delivery times `[30, 45, 45, 60, 90]`,
`summarize` yields count 5, mean 54, median 45, and p90 = 78, the value of
linear interpolation between the order statistics at position
`0.9·(5−1) = 3.6` (the correlation matrix: the distance and experience
columns are absent from this minimal view, so those entries are `NaN`;
the delivery-time autocorrelation is defined). -/
theorem claim_C8 :
    summarize t8 = ⟨5, some 54, some 45, some 78,
      [[none, none, none], [none, none, none],
       [none, none, some (10350, 107122500)]]⟩ ∧
    (78 : ℚ) = 60 + (ratDiv 9 10 * (5 - 1) - 3) * (90 - 60) := by
  constructor
  · decide
  · decide

/-- A well-formed but dirty pre-cleaned table for C9: it has all required
columns, yet contains a missing delivery time, the non-canonical
categorical token `"storm"`, and the non-numeric token `"abc"` in the
distance column. -/
def t9 : Table :=
  ⟨["Delivery_Time_min", "Distance_km", "Courier_Experience_yrs",
    "Weather", "Traffic_Level", "Time_of_Day", "Vehicle_Type"],
   [[Cell.num 30, Cell.missing],
    [Cell.str "abc", Cell.num 5],
    [Cell.num 1, Cell.num 2],
    [Cell.str "storm", Cell.str "Sunny"],
    [Cell.str "Low", Cell.str "High"],
    [Cell.str "Morning", Cell.str "Night"],
    [Cell.str "Bike", Cell.str "Car"]]⟩

/-- C9: on the pre-cleaned path the parsed file is returned unchanged —
no trimming, coercion, normalization, row dropping or imputation — and
the only pre-query validation is the required-column check; consequently
the concrete pre-cleaned table `t9`, which passes validation, becomes a
served Dataset even though it has a missing delivery time, a
non-canonical categorical value and a non-numeric token in a numeric
column. -/
theorem claim_C9 :
    (∀ (t : Table) (r : Option Table),
      needed.filter (fun c => c ∉ t.header) = [] →
      loadDataset ⟨some t, r⟩ = Except.ok (t, Provenance.clean)) ∧
    (loadDataset ⟨some t9, none⟩ = Except.ok (t9, Provenance.clean) ∧
      Cell.missing ∈ getCol t9 "Delivery_Time_min" ∧
      Cell.str "storm" ∈ getCol t9 "Weather" ∧
      "storm" ∉ weatherMap.map Prod.snd ∧
      Cell.str "abc" ∈ getCol t9 "Distance_km" ∧
      coerceCell (Cell.str "abc") = Cell.missing) := by
  constructor
  · intro t r hneed
    unfold loadDataset load_data
    simp only [Except.bind]
    rw [hneed]
    rfl
  · refine ⟨?_, by decide, by decide, by decide, by decide, by decide⟩
    decide

theorem claim_C9_witness :
    loadDataset ⟨some t9, none⟩ = Except.ok (t9, Provenance.clean) :=
  claim_C9.1 t9 none (by decide)

theorem loadDataset_clean (t : Table) (r : Option Table) :
    loadDataset ⟨some t, r⟩ =
      if needed.filter (fun c => c ∉ t.header) = [] then
        Except.ok (t, Provenance.clean)
      else Except.error (LoadErr.missingFields
        (needed.filter (fun c => c ∉ t.header))) := rfl

theorem loadDataset_raw_err {t : Table} {e' : LoadErr}
    (h : autoClean t = Except.error e') :
    loadDataset ⟨none, some t⟩ = Except.error e' := by
  unfold loadDataset load_data
  dsimp only
  rw [h]
  rfl

theorem loadDataset_raw_ok {t u : Table} (h : autoClean t = Except.ok u) :
    loadDataset ⟨none, some t⟩ =
      if needed.filter (fun c => c ∉ u.header) = [] then
        Except.ok (u, Provenance.rawAuto)
      else Except.error (LoadErr.missingFields
        (needed.filter (fun c => c ∉ u.header))) := by
  unfold loadDataset load_data
  dsimp only
  rw [h]
  rfl

theorem autoClean_err_of {t : Table}
    (h : "Delivery_Time_min" ∉ t.header.map pytrim) :
    autoClean t = Except.error LoadErr.keyErrorDT := by
  simp only [autoClean, header_normalizeCats, header_coerceNumerics,
    header_stripHeader]
  rw [if_neg h]

theorem autoClean_ok_of {t : Table}
    (h : "Delivery_Time_min" ∈ t.header.map pytrim) :
    autoClean t = Except.ok (imputeCats (imputeNums (dropMissingDT
      (normalizeCats (coerceNumerics (stripHeader t)))))) := by
  simp only [autoClean, header_normalizeCats, header_coerceNumerics,
    header_stripHeader]
  rw [if_pos h]

/-- C6 counterexample input: only the raw file exists and it lacks the
delivery-time column. -/
def tC6 : Table := ⟨["Weather"], [[Cell.str "Sunny"]]⟩

/-- C6 counterexample: with only a raw file lacking `Delivery_Time_min`,
startup halts via the uncaught `KeyError` of line 43, NOT via the
missing-fields report of lines 62–64 — so in this fatal case the missing
field names are not reported, contradicting the claim's parenthetical. -/
theorem claim_C6_counterexample :
    loadDataset ⟨none, some tC6⟩ = Except.error LoadErr.keyErrorDT ∧
    loadDataset ⟨none, some tC6⟩
      ≠ Except.error (LoadErr.missingFields
          (needed.filter (fun c => c ∉ tC6.header))) := by
  constructor
  · decide
  · decide

/-- C6 (amended): `loadDataset` fails fatally exactly when no candidate
source file exists, or a required field is absent from the loaded table's
columns (for the raw path: from the whitespace-stripped columns).  The
missing names are reported via the `missingFields` error on the
pre-cleaned path, and on the raw path when `Delivery_Time_min` itself is
present; a raw file without `Delivery_Time_min` instead halts with the
uncaught `KeyError` of line 43, reporting no field list. -/
theorem claim_C6 (e : Env) :
    (∃ err, loadDataset e = Except.error err) ↔
      (e.cleanFile = none ∧ e.rawFile = none) ∨
      (∃ t, e.cleanFile = some t ∧ ∃ c ∈ needed, c ∉ t.header) ∨
      (e.cleanFile = none ∧ ∃ t, e.rawFile = some t ∧
        ∃ c ∈ needed, c ∉ t.header.map pytrim) := by
  obtain ⟨cf, rf⟩ := e
  cases cf with
  | some t =>
      rw [loadDataset_clean t rf]
      by_cases hf : needed.filter (fun c => c ∉ t.header) = []
      · rw [if_pos hf]
        apply iff_of_false
        · rintro ⟨err, herr⟩
          cases herr
        · rintro (⟨hc, _⟩ | ⟨t', ht', c, hcn, hmem⟩ | ⟨hc, _⟩)
          · cases hc
          · obtain rfl : t = t' := Option.some.inj ht'
            have := List.filter_eq_nil_iff.mp hf c hcn
            simp at this
            exact hmem this
          · cases hc
      · rw [if_neg hf]
        apply iff_of_true
        · exact ⟨_, rfl⟩
        · refine Or.inr (Or.inl ⟨t, rfl, ?_⟩)
          by_contra hno
          push_neg at hno
          apply hf
          apply List.filter_eq_nil_iff.mpr
          intro a ha
          simpa using hno a ha
  | none =>
      cases rf with
      | none =>
          apply iff_of_true
          · exact ⟨LoadErr.noFile, rfl⟩
          · exact Or.inl ⟨rfl, rfl⟩
      | some t =>
          by_cases hDT : "Delivery_Time_min" ∈ t.header.map pytrim
          · have hok := autoClean_ok_of hDT
            generalize hU : imputeCats (imputeNums (dropMissingDT
              (normalizeCats (coerceNumerics (stripHeader t))))) = u at hok
            have hhu : u.header = t.header.map pytrim := by
              rw [← hU]
              simp
            rw [loadDataset_raw_ok hok]
            by_cases hf : needed.filter (fun c => c ∉ u.header) = []
            · rw [if_pos hf]
              apply iff_of_false
              · rintro ⟨err, herr⟩
                cases herr
              · rintro (⟨_, hc⟩ | ⟨t', ht', _⟩ | ⟨_, t', ht', c, hcn, hmem⟩)
                · cases hc
                · cases ht'
                · obtain rfl : t = t' := Option.some.inj ht'
                  have := List.filter_eq_nil_iff.mp hf c hcn
                  simp only [decide_eq_true_eq, not_not] at this
                  rw [hhu] at this
                  exact hmem this
            · rw [if_neg hf]
              apply iff_of_true
              · exact ⟨_, rfl⟩
              · refine Or.inr (Or.inr ⟨rfl, t, rfl, ?_⟩)
                by_contra hno
                push_neg at hno
                apply hf
                apply List.filter_eq_nil_iff.mpr
                intro a ha
                rw [hhu]
                simpa using hno a ha
          · rw [loadDataset_raw_err (autoClean_err_of hDT)]
            apply iff_of_true
            · exact ⟨_, rfl⟩
            · exact Or.inr (Or.inr ⟨rfl, t, rfl, "Delivery_Time_min",
                by decide, hDT⟩)

theorem claim_C6_witness :
    ∃ err, loadDataset ⟨none, none⟩ = Except.error err :=
  (claim_C6 ⟨none, none⟩).mpr (Or.inl ⟨rfl, rfl⟩)

theorem getCol_eq_nil {t : Table} (h : ∀ col ∈ t.colData, col = [])
    (c : String) : getCol t c = [] := by
  unfold getCol
  by_cases hi : t.header.indexOf c < t.colData.length
  · rw [List.getD_eq_getElem?_getD, List.getElem?_eq_getElem hi]
    exact h _ (List.getElem_mem hi)
  · rw [List.getD_eq_getElem?_getD, List.getElem?_eq_none (by omega)]
    rfl

theorem mem_fst_pairsOf {xs ys : Col} {p : ℚ × ℚ} (h : p ∈ pairsOf xs ys) :
    p.1 ∈ numVals xs := by
  unfold pairsOf at h
  obtain ⟨⟨a, b⟩, hab, hp⟩ := List.mem_filterMap.mp h
  cases a with
  | num qa =>
      cases b with
      | num qb =>
          simp only [Option.some.injEq] at hp
          have hmem := List.of_mem_zip hab
          exact List.mem_filterMap.mpr ⟨Cell.num qa, hmem.1, by rw [← hp]⟩
      | str _ => simp at hp
      | missing => simp at hp
  | str _ => simp at hp
  | missing => simp at hp

/-- A list whose members all equal `q` has zero scaled variance. -/
theorem pearsonND_const_left {ps : List (ℚ × ℚ)} {q : ℚ}
    (h : ∀ p ∈ ps, p.1 = q) : pearsonND ps = none := by
  unfold pearsonND
  have hx : (ps.map (fun p => p.1)).sum = ps.length * q := by
    rw [List.sum_eq_card_nsmul _ q (by
      intro x hx
      obtain ⟨p, hp, rfl⟩ := List.mem_map.mp hx
      exact h p hp)]
    simp [nsmul_eq_mul]
  have hxx : (ps.map (fun p => p.1 * p.1)).sum = ps.length * (q * q) := by
    rw [List.sum_eq_card_nsmul _ (q * q) (by
      intro x hx
      obtain ⟨p, hp, rfl⟩ := List.mem_map.mp hx
      rw [h p hp])]
    simp [nsmul_eq_mul]
  rw [if_pos]
  left
  rw [hx, hxx]
  ring

/-- The everywhere-`NaN` summary of an empty view. -/
def emptySummary : Summary :=
  ⟨0, none, none, none,
   [[none, none, none], [none, none, none], [none, none, none]]⟩

/-- C7: `summarize` is total (it never raises); on an empty view it
returns count 0 and `NaN` (`none`) for mean, median, p90 and every
correlation entry; and a correlation entry is `NaN` whenever one of its
columns is constant (zero variance) over the view, in particular on
empty or single-valued views. -/
theorem claim_C7 :
    (∀ t : Table, (∀ col ∈ t.colData, col = []) →
      summarize t = emptySummary) ∧
    (∀ (t : Table) (i j : ℕ) (q : ℚ),
      (∀ x ∈ numVals (getCol t (useCols.getD i "")), x = q) →
      corrEntry t i j = none) := by
  constructor
  · intro t h
    have hnil : ∀ c, getCol t c = [] := getCol_eq_nil h
    have hrows : nRows t = 0 := by
      unfold nRows
      cases hcd : t.colData with
      | nil => rfl
      | cons col cols =>
          have : col = [] := h col (by rw [hcd]; exact List.mem_cons_self _ _)
          simp [this]
    unfold summarize
    rw [hrows]
    unfold emptySummary
    have hcorr : ∀ i j : ℕ, corrEntry t i j = none := by
      intro i j
      unfold corrEntry
      rw [hnil, hnil]
      rfl
    rw [hnil]
    refine congrArg _ ?_
    simp [hcorr]
  · intro t i j q h
    unfold corrEntry
    apply pearsonND_const_left
    intro p hp
    exact h p.1 (mem_fst_pairsOf hp)

/-- The empty seven-column view (what filtering everything away yields). -/
def tC7 : Table :=
  ⟨["Delivery_Time_min", "Distance_km", "Courier_Experience_yrs",
    "Weather", "Traffic_Level", "Time_of_Day", "Vehicle_Type"],
   [[], [], [], [], [], [], []]⟩

/-- A single-row view: zero variance in every numeric column. -/
def tC7b : Table :=
  ⟨["Delivery_Time_min", "Distance_km", "Courier_Experience_yrs"],
   [[Cell.num 42], [Cell.num 3], [Cell.num 1]]⟩

theorem claim_C7_witness :
    summarize tC7 = emptySummary ∧ corrEntry tC7b 0 2 = none :=
  ⟨claim_C7.1 tC7 (by decide), claim_C7.2 tC7b 0 2 3 (by decide)⟩

/-- Is this cell an actual number? -/
def isNum : Cell → Bool
  | .num _ => true
  | _ => false

theorem exists_num_of_isNum {x : Cell} (h : isNum x = true) :
    ∃ q, x = Cell.num q := by
  cases x with
  | num q => exact ⟨q, rfl⟩
  | str s => simp [isNum] at h
  | missing => simp [isNum] at h

theorem foldl_min_le (xs : List ℚ) (a : ℚ) :
    xs.foldl min a ≤ a ∧ ∀ b ∈ xs, xs.foldl min a ≤ b := by
  induction xs generalizing a with
  | nil => simp
  | cons x xs ih =>
      constructor
      · exact le_trans (ih (min a x)).1 (min_le_left _ _)
      · intro b hb
        rcases List.mem_cons.mp hb with rfl | hb
        · exact le_trans (ih (min a b)).1 (min_le_right _ _)
        · exact (ih (min a x)).2 b hb

theorem le_foldl_max (xs : List ℚ) (a : ℚ) :
    a ≤ xs.foldl max a ∧ ∀ b ∈ xs, b ≤ xs.foldl max a := by
  induction xs generalizing a with
  | nil => simp
  | cons x xs ih =>
      constructor
      · exact le_trans (le_max_left _ _) (ih (max a x)).1
      · intro b hb
        rcases List.mem_cons.mp hb with rfl | hb
        · exact le_trans (le_max_right _ _) (ih (max a b)).1
        · exact (ih (max a x)).2 b hb

theorem colMinQ_le {col : Col} {q : ℚ} (h : q ∈ numVals col) :
    colMinQ col ≤ q := by
  unfold colMinQ
  cases hl : numVals col with
  | nil => rw [hl] at h; simp at h
  | cons x xs =>
      rw [hl] at h
      show (List.min? (x :: xs)).getD 0 ≤ q
      rcases List.mem_cons.mp h with rfl | hq
      · simpa [List.min?] using (foldl_min_le xs q).1
      · simpa [List.min?] using (foldl_min_le xs x).2 q hq

theorem le_colMaxQ {col : Col} {q : ℚ} (h : q ∈ numVals col) :
    q ≤ colMaxQ col := by
  unfold colMaxQ
  cases hl : numVals col with
  | nil => rw [hl] at h; simp at h
  | cons x xs =>
      rw [hl] at h
      show q ≤ (List.max? (x :: xs)).getD 0
      rcases List.mem_cons.mp h with rfl | hq
      · simpa [List.max?] using (le_foldl_max xs q).1
      · simpa [List.max?] using (le_foldl_max xs x).2 q hq

theorem andMask_all_true {a b : List Bool}
    (ha : ∀ x ∈ a, x = true) (hb : ∀ x ∈ b, x = true) :
    ∀ x ∈ andMask a b, x = true := by
  induction a generalizing b with
  | nil => simp [andMask]
  | cons x xs ih =>
      cases b with
      | nil => simp [andMask]
      | cons y ys =>
          intro z hz
          unfold andMask at hz
          rw [List.zipWith_cons_cons] at hz
          rcases List.mem_cons.mp hz with rfl | hz
          · rw [ha x (by simp), hb y (by simp)]
            rfl
          · exact ih (fun w hw => ha w (by simp [hw]))
              (fun w hw => hb w (by simp [hw])) z hz

theorem length_andMask (a b : List Bool) :
    (andMask a b).length = min a.length b.length := by
  unfold andMask
  exact List.length_zipWith _ _ _

theorem mem_observedSorted {col : Col} {x : Cell}
    (hx : x ∈ col) (hm : x ≠ Cell.missing) : x ∈ observedSorted col := by
  unfold observedSorted sortCells
  rw [(List.perm_insertionSort _ _).mem_iff]
  rw [List.mem_dedup]
  exact List.mem_filter.mpr ⟨hx, by simpa using hm⟩

theorem getCol_length {t : Table} {c : String}
    (hc : c ∈ t.header) (hcd : t.colData.length = t.header.length)
    (hrect : ∀ col ∈ t.colData, col.length = nRows t) :
    (getCol t c).length = nRows t := by
  unfold getCol
  have hi : t.header.indexOf c < t.colData.length := by
    rw [hcd]
    exact List.indexOf_lt_length.mpr hc
  rw [List.getD_eq_getElem?_getD, List.getElem?_eq_getElem hi]
  exact hrect _ (List.getElem_mem hi)

/-- C2 counterexample input: a valid pre-cleaned Dataset (all required
columns present, and it passes validation) in which one record's
distance is missing. -/
def tC2 : Table :=
  ⟨["Delivery_Time_min", "Distance_km", "Courier_Experience_yrs",
    "Weather", "Traffic_Level", "Time_of_Day", "Vehicle_Type"],
   [[Cell.num 30, Cell.num 40],
    [Cell.num 5, Cell.missing],
    [Cell.num 1, Cell.num 2],
    [Cell.str "Sunny", Cell.str "Rainy"],
    [Cell.str "Low", Cell.str "High"],
    [Cell.str "Morning", Cell.str "Night"],
    [Cell.str "Bike", Cell.str "Car"]]⟩

/-- C2 counterexample: `tC2` is a served Dataset (clean path, passes
validation), yet filtering with the maximal spec drops its second record,
whose distance is `NaN` — `between` is false on `NaN` — so the maximal
filter is not the identity on every Dataset. -/
theorem claim_C2_counterexample :
    loadDataset ⟨some tC2, none⟩ = Except.ok (tC2, Provenance.clean) ∧
    filterTable tC2 (maximalSpec tC2) ≠ tC2 := by
  constructor
  · decide
  · decide

/-- C2 (amended): the maximal FilterSpec — every observed categorical
value selected and each numeric range `[min, max]` of its column — is the
identity on every rectangular Dataset with no missing value in the four
categorical columns and only numeric values in the two numeric columns;
a record with `NaN` in a filter column (possible on both load paths) is
dropped instead. -/
theorem claim_C2 (t : Table)
    (hcd : t.colData.length = t.header.length)
    (hrect : ∀ col ∈ t.colData, col.length = nRows t)
    (hW : "Weather" ∈ t.header) (hT : "Traffic_Level" ∈ t.header)
    (hTo : "Time_of_Day" ∈ t.header) (hV : "Vehicle_Type" ∈ t.header)
    (hD : "Distance_km" ∈ t.header) (hE : "Courier_Experience_yrs" ∈ t.header)
    (hcat : ∀ c ∈ ["Weather", "Traffic_Level", "Time_of_Day", "Vehicle_Type"],
      ∀ x ∈ getCol t c, x ≠ Cell.missing)
    (hnum : ∀ c ∈ ["Distance_km", "Courier_Experience_yrs"],
      ∀ x ∈ getCol t c, isNum x = true) :
    filterTable t (maximalSpec t) = t := by
  have hcatmask : ∀ c ∈ ["Weather", "Traffic_Level", "Time_of_Day", "Vehicle_Type"],
      ∀ b ∈ (getCol t c).map (memberCell (observedSorted (getCol t c))), b = true := by
    intro c hc b hb
    obtain ⟨x, hx, rfl⟩ := List.mem_map.mp hb
    unfold memberCell
    simpa using mem_observedSorted hx (hcat c hc x hx)
  have hnummask : ∀ c ∈ ["Distance_km", "Courier_Experience_yrs"],
      ∀ b ∈ (getCol t c).map
        (betweenCell (colMinQ (getCol t c)) (colMaxQ (getCol t c))), b = true := by
    intro c hc b hb
    obtain ⟨x, hx, rfl⟩ := List.mem_map.mp hb
    obtain ⟨q, rfl⟩ := exists_num_of_isNum (hnum c hc x hx)
    have hqv : q ∈ numVals (getCol t c) :=
      List.mem_filterMap.mpr ⟨Cell.num q, hx, rfl⟩
    unfold betweenCell
    simpa using ⟨colMinQ_le hqv, le_colMaxQ hqv⟩
  have hmask : ∀ b ∈ filterMask t (maximalSpec t), b = true := by
    unfold filterMask maximalSpec
    exact andMask_all_true (hcatmask _ (by simp))
      (andMask_all_true (hcatmask _ (by simp))
        (andMask_all_true (hcatmask _ (by simp))
          (andMask_all_true (hcatmask _ (by simp))
            (andMask_all_true (hnummask _ (by simp)) (hnummask _ (by simp))))))
  have hmlen : (filterMask t (maximalSpec t)).length = nRows t := by
    unfold filterMask
    rw [length_andMask, length_andMask, length_andMask, length_andMask,
      length_andMask]
    simp only [List.length_map]
    rw [getCol_length hW hcd hrect, getCol_length hT hcd hrect,
      getCol_length hTo hcd hrect, getCol_length hV hcd hrect,
      getCol_length hD hcd hrect, getCol_length hE hcd hrect]
    simp
  unfold filterTable maskTable
  cases t with
  | mk hd cd =>
      simp only
      rw [map_id_of_mem]
      intro col hcol
      apply applyMask_all_true hmask
      rw [hmlen]
      exact (hrect col hcol).le

/-- A one-record all-present Dataset for the C2 witness. -/
def tC2w : Table :=
  ⟨["Delivery_Time_min", "Distance_km", "Courier_Experience_yrs",
    "Weather", "Traffic_Level", "Time_of_Day", "Vehicle_Type"],
   [[Cell.num 30], [Cell.num 5], [Cell.num 1], [Cell.str "Sunny"],
    [Cell.str "Low"], [Cell.str "Morning"], [Cell.str "Bike"]]⟩

theorem claim_C2_witness : filterTable tC2w (maximalSpec tC2w) = tC2w :=
  claim_C2 tC2w (by decide) (by decide) (by decide) (by decide) (by decide)
    (by decide) (by decide) (by decide) (by decide) (by decide)

/-! ## Row removal commutes with the per-cell stages (for C10) -/

theorem map_pytrim_idem (l : List String) :
    (l.map pytrim).map pytrim = l.map pytrim := by
  rw [List.map_map]
  exact List.map_congr_left (fun a _ => pytrim_idem a)

theorem stripHeader_stripHeader (t : Table) :
    stripHeader (stripHeader t) = stripHeader t := by
  unfold stripHeader
  simp only
  rw [map_pytrim_idem]

theorem stripHeader_maskTable (m : List Bool) (t : Table) :
    stripHeader (maskTable m t) = maskTable m (stripHeader t) := rfl

theorem getD_map_applyMask (m : List Bool) (cd : List Col) (i : ℕ) :
    (cd.map (applyMask m)).getD i [] = applyMask m (cd.getD i []) := by
  by_cases h : i < cd.length
  · rw [List.getD_eq_getElem?_getD, List.getElem?_map,
      List.getElem?_eq_getElem h]
    simp [List.getD_eq_getElem?_getD, List.getElem?_eq_getElem h]
  · rw [List.getD_eq_getElem?_getD,
      List.getElem?_eq_none (by simpa using (by omega : cd.length ≤ i)),
      List.getD_eq_getElem?_getD, List.getElem?_eq_none (by omega)]
    simp

theorem updateCol_maskTable (m : List Bool) (t : Table) (c : String)
    (f : Cell → Cell) :
    updateCol (maskTable m t) c f = maskTable m (updateCol t c f) := by
  unfold updateCol
  by_cases hc : c ∈ t.header
  · rw [if_pos (by simpa using hc), if_pos hc]
    unfold maskTable
    simp only [List.map_set]
    congr 2
    rw [getD_map_applyMask, applyMask_map_comm]
  · rw [if_neg (by simpa using hc), if_neg hc]

theorem coerceNumerics_maskTable (m : List Bool) (t : Table) :
    coerceNumerics (maskTable m t) = maskTable m (coerceNumerics t) := by
  unfold coerceNumerics
  rw [updateCol_maskTable, updateCol_maskTable, updateCol_maskTable]

theorem normalizeCats_maskTable (m : List Bool) (t : Table) :
    normalizeCats (maskTable m t) = maskTable m (normalizeCats t) := by
  unfold normalizeCats
  rw [updateCol_maskTable, updateCol_maskTable, updateCol_maskTable,
    updateCol_maskTable]

theorem dropMissingDT_col_len (t3 : Table) :
    ∀ col ∈ (dropMissingDT t3).colData,
      col.length ≤ (getCol (dropMissingDT t3) "Delivery_Time_min").length := by
  intro col hcol
  rw [getCol_dropMissingDT_dt]
  unfold dropMissingDT maskTable at hcol
  simp only at hcol
  obtain ⟨col', _, rfl⟩ := List.mem_map.mp hcol
  calc (applyMask (dtMask t3) col').length
      ≤ ((dtMask t3).filter (fun b => b)).length :=
        length_applyMask_le_countTrue _ _
    _ = ((getCol t3 "Delivery_Time_min").filter
          (fun x => x ≠ Cell.missing)).length := by
        unfold dtMask
        exact countTrue_map _ _

theorem dropMissingDT_idem (t3 : Table) :
    dropMissingDT (dropMissingDT t3) = dropMissingDT t3 := by
  apply dropMissingDT_eq_self
  · rw [getCol_dropMissingDT_dt]
    intro hmem
    have h2 := (List.mem_filter.mp hmem).2
    simp at h2
  · exact dropMissingDT_col_len t3

/-- The rows of the raw table whose delivery time survives coercion — the
records the auto-clean keeps. -/
def preMask (t : Table) : List Bool :=
  (getCol (stripHeader t) "Delivery_Time_min").map
    (fun x => coerceCell x ≠ Cell.missing)

/-- The retained records after normalization and the delivery-time drop —
the population every imputation statistic is computed over. -/
def retainedTable (t : Table) : Table :=
  dropMissingDT (normalizeCats (coerceNumerics (stripHeader t)))

/-- Lines 45–47 on one column: fill the missing entries, if any, with the
column's median, computed once over this very column. -/
def numFillCol (col : Col) : Col :=
  if Cell.missing ∈ col then col.map (fillWith (medianFillVal col)) else col

/-- Lines 48–51 on one column: fill the missing entries, if any, with the
first (in ascending order) of the column's modes, computed over this very
column; an all-missing column stays unfilled. -/
def catFillCol (col : Col) : Col :=
  if Cell.missing ∈ col then
    match modeVal col with
    | some m => col.map (fillWith (some m))
    | none => col
  else col

theorem getCol_imputeNum_fill {t : Table} {c : String} (hc : c ∈ t.header) :
    getCol (imputeNum t c) c = numFillCol (getCol t c) := by
  unfold imputeNum numFillCol
  by_cases hm : Cell.missing ∈ getCol t c
  · rw [if_pos ⟨hc, hm⟩, if_pos hm, getCol_updateCol_self hc]
  · rw [if_neg (fun hg => hm hg.2), if_neg hm]

theorem getCol_imputeCat_fill {t : Table} {c : String} (hc : c ∈ t.header) :
    getCol (imputeCat t c) c = catFillCol (getCol t c) := by
  unfold imputeCat catFillCol
  by_cases hm : Cell.missing ∈ getCol t c
  · rw [if_pos ⟨hc, hm⟩, if_pos hm]
    cases hmv : modeVal (getCol t c) with
    | none => rfl
    | some m => exact getCol_updateCol_self hc _
  · rw [if_neg (fun hg => hm hg.2), if_neg hm]

/-- C10: (i) pruning the records with uncoercible delivery time from the
raw table before running the auto-clean changes nothing — the dropped
records never contribute to any fill value or any other output; (ii) each
imputed column of the output is exactly the single-pass fill of that
column of the retained table: medians over the retained non-missing
numeric values, and the first (ascending) mode over the retained
categorical values. -/
theorem claim_C10 (t : Table) :
    autoClean t = autoClean (maskTable (preMask t) (stripHeader t)) ∧
    (∀ u, autoClean t = Except.ok u →
      ("Distance_km" ∈ (stripHeader t).header →
        getCol u "Distance_km"
          = numFillCol (getCol (retainedTable t) "Distance_km")) ∧
      ("Courier_Experience_yrs" ∈ (stripHeader t).header →
        getCol u "Courier_Experience_yrs"
          = numFillCol (getCol (retainedTable t) "Courier_Experience_yrs")) ∧
      ("Weather" ∈ (stripHeader t).header →
        getCol u "Weather" = catFillCol (getCol (retainedTable t) "Weather")) ∧
      ("Traffic_Level" ∈ (stripHeader t).header →
        getCol u "Traffic_Level"
          = catFillCol (getCol (retainedTable t) "Traffic_Level")) ∧
      ("Time_of_Day" ∈ (stripHeader t).header →
        getCol u "Time_of_Day"
          = catFillCol (getCol (retainedTable t) "Time_of_Day")) ∧
      ("Vehicle_Type" ∈ (stripHeader t).header →
        getCol u "Vehicle_Type"
          = catFillCol (getCol (retainedTable t) "Vehicle_Type"))) := by
  constructor
  · have hpipe : normalizeCats (coerceNumerics
        (stripHeader (maskTable (preMask t) (stripHeader t))))
        = maskTable (preMask t)
            (normalizeCats (coerceNumerics (stripHeader t))) := by
      rw [stripHeader_maskTable, stripHeader_stripHeader,
        coerceNumerics_maskTable, normalizeCats_maskTable]
    by_cases hDT : "Delivery_Time_min" ∈ t.header.map pytrim
    · have hDT' : "Delivery_Time_min"
          ∈ (maskTable (preMask t) (stripHeader t)).header.map pytrim := by
        show "Delivery_Time_min" ∈ (t.header.map pytrim).map pytrim
        rw [map_pytrim_idem]
        exact hDT
      rw [autoClean_ok_of hDT, autoClean_ok_of hDT']
      have hm : preMask t
          = dtMask (normalizeCats (coerceNumerics (stripHeader t))) := by
        unfold preMask dtMask
        rw [getCol_normalizeCats (by decide),
          getCol_coerce_dt (by simpa using hDT), List.map_map]
        rfl
      rw [hpipe, hm]
      have : maskTable (dtMask (normalizeCats (coerceNumerics (stripHeader t))))
          (normalizeCats (coerceNumerics (stripHeader t)))
          = dropMissingDT (normalizeCats (coerceNumerics (stripHeader t))) := rfl
      rw [this, dropMissingDT_idem]
    · have hDT' : "Delivery_Time_min"
          ∉ (maskTable (preMask t) (stripHeader t)).header.map pytrim := by
        show "Delivery_Time_min" ∉ (t.header.map pytrim).map pytrim
        rw [map_pytrim_idem]
        exact hDT
      rw [autoClean_err_of hDT, autoClean_err_of hDT']
  · intro u h
    obtain ⟨hDT, hu⟩ := autoClean_ok_elim h
    unfold retainedTable
    set t4 := dropMissingDT (normalizeCats (coerceNumerics (stripHeader t)))
      with ht4
    have hD4 : ∀ c : String, c ∈ (stripHeader t).header → c ∈ t4.header := by
      intro c hc
      rw [ht4, header_dropMissingDT, header_normalizeCats,
        header_coerceNumerics]
      exact hc
    refine ⟨?_, ?_, ?_, ?_, ?_, ?_⟩
    · intro hD
      rw [hu, getCol_imputeCats_num (by decide), getCol_imputeNums_dist,
        getCol_imputeNum_fill (hD4 _ hD)]
    · intro hE
      have hE' : "Courier_Experience_yrs"
          ∈ (imputeNum t4 "Distance_km").header := by
        rw [header_imputeNum]
        exact hD4 _ hE
      rw [hu, getCol_imputeCats_num (by decide), getCol_imputeNums_exp,
        getCol_imputeNum_fill hE', getCol_imputeNum_ne (by decide)]
    · intro hW
      have hW' : "Weather" ∈ (imputeNums t4).header := by
        rw [header_imputeNums]
        exact hD4 _ hW
      rw [hu, getCol_imputeCats_w, getCol_imputeCat_fill hW',
        getCol_imputeNums_cat (by decide)]
    · intro hT
      have hT' : "Traffic_Level"
          ∈ (imputeCat (imputeNums t4) "Weather").header := by
        rw [header_imputeCat, header_imputeNums]
        exact hD4 _ hT
      rw [hu, getCol_imputeCats_tr, getCol_imputeCat_fill hT',
        getCol_imputeCat_ne (by decide), getCol_imputeNums_cat (by decide)]
    · intro hTo
      have hTo' : "Time_of_Day"
          ∈ (imputeCat (imputeCat (imputeNums t4) "Weather")
              "Traffic_Level").header := by
        rw [header_imputeCat, header_imputeCat, header_imputeNums]
        exact hD4 _ hTo
      rw [hu, getCol_imputeCats_tod, getCol_imputeCat_fill hTo',
        getCol_imputeCat_ne (by decide), getCol_imputeCat_ne (by decide),
        getCol_imputeNums_cat (by decide)]
    · intro hV
      have hV' : "Vehicle_Type"
          ∈ (imputeCat (imputeCat (imputeCat (imputeNums t4) "Weather")
              "Traffic_Level") "Time_of_Day").header := by
        rw [header_imputeCat, header_imputeCat, header_imputeCat,
          header_imputeNums]
        exact hD4 _ hV
      rw [hu, getCol_imputeCats_v, getCol_imputeCat_fill hV',
        getCol_imputeCat_ne (by decide), getCol_imputeCat_ne (by decide),
        getCol_imputeCat_ne (by decide), getCol_imputeNums_cat (by decide)]

/-- Input for the C10 witness: one record is dropped for its missing
delivery time; another has a missing distance to be imputed. -/
def tC10 : Table :=
  ⟨["Delivery_Time_min", "Distance_km"],
   [[Cell.num 30, Cell.num 40, Cell.missing],
    [Cell.num 5, Cell.missing, Cell.num 9]]⟩

/-- Auto-clean output for the C10 witness: the distance fill value is 5,
the median over the two retained records only (9 never contributes). -/
def uC10 : Table :=
  ⟨["Delivery_Time_min", "Distance_km"],
   [[Cell.num 30, Cell.num 40], [Cell.num 5, Cell.num 5]]⟩

theorem claim_C10_witness :
    getCol uC10 "Distance_km"
      = numFillCol (getCol (retainedTable tC10) "Distance_km") :=
  (((claim_C10 tC10).2 uC10 (by decide)).1) (by decide)

end Dashboard
